import Mathlib

/-!
Verification of the ALS packet pipeline of linkura-cli.

This file shallowly embeds the Rust sources of the `linkura-packet` crate
(`src/crates/packet/src/als/...`) in Lean 4 and proves or refutes the
frozen claims about them.  Bytes are modelled as `List Nat` whose elements
are below 256 by construction; machine integers are `Nat`/`Int` with
explicit reductions modulo powers of two where the Rust code casts or
wraps; Rust panics are modelled by `Option` (with `none` for a panic) and
fallible functions by an `Except`-style result type.

The prost-generated protobuf codec for `DataPack`/`DataFrame` (produced
from `datapack.proto` into `OUT_DIR/als.rs`, re-exported as the `define`
module) is not part of the given sources; where it is needed it is
modelled from the spec ("uses the protobuf wire format with the following
field numbers: DataPack.data=2, pong=10, segment_started_at=14,
cache_ended=15, frames=16; DataFrame.instantiate_object=128,
update_object=129, destroy_object=130, room=143, authorize_response=144,
join_room_response=147"), and such definitions carry a `Modelled from the
spec:` doc comment.
-/

namespace Linkura

/-- Byte strings are lists of naturals; every byte produced by an encoder
in this file is below 256. -/
abbrev Bytes := List Nat

/-- Big-endian 2-byte encoding of a `u16` value (`u16::to_be_bytes`). -/
def u16BeBytes (n : Nat) : Bytes :=
  [n / 256 % 256, n % 256]

/-- Big-endian 8-byte encoding of a `u64` value (`u64::to_be_bytes`). -/
def u64BeBytes (n : Nat) : Bytes :=
  [n / 2 ^ 56 % 256, n / 2 ^ 48 % 256, n / 2 ^ 40 % 256, n / 2 ^ 32 % 256,
   n / 2 ^ 24 % 256, n / 2 ^ 16 % 256, n / 2 ^ 8 % 256, n % 256]

/-- Big-endian 8-byte encoding of an `i64` value (`i64::to_be_bytes`),
via its two's-complement `u64` bit pattern. -/
def i64BeBytes (v : Int) : Bytes :=
  u64BeBytes (v % (2 ^ 64 : Int)).toNat

/-- Two's-complement reading of a `u64` bit pattern as an `i64`
(the Rust cast `as i64`). -/
def u64AsI64 (n : Nat) : Int :=
  if n < 2 ^ 63 then (n : Int) else (n : Int) - 2 ^ 64

/-- Two's-complement reading of the low 32 bits of a `u64` as an `i32`
(the prost `int32` decoding step `value as i32`). -/
def u64AsI32 (n : Nat) : Int :=
  if n % 2 ^ 32 < 2 ^ 31 then ((n % 2 ^ 32 : Nat) : Int)
  else ((n % 2 ^ 32 : Nat) : Int) - 2 ^ 32

/-! ## Client request packets (`src/crates/packet/src/als/packet.rs`) -/

/-- Constant `MAGIC_DELIMITER: [u8; 3] = [0x00, 0x82, 0x01]`. -/
def magicDelimiter : Bytes := [0x00, 0x82, 0x01]

/-- Constant `KEEP_ALIVE_MAGIC: [u8; 3] = [0x00, 0x48, 0x01]`. -/
def keepAliveMagic : Bytes := [0x00, 0x48, 0x01]

/-- The `AlsPacket` enum; `String` payloads are modelled by their UTF-8
byte lists. -/
inductive AlsPacket
  | authenticateRequest (token : Bytes)
  | joinRequest (roomId : Bytes)
  | keepAliveRequest

/-- Fuel-indexed loop body of `AlsPacket::get_varint`; the fuel only
serves structural recursion and is always sufficient when it starts at
the argument itself. -/
def getVarintAux : Nat → Nat → Bytes
  | 0, _ => []
  | fuel + 1, len =>
    if len = 0 then []
    else if len / 128 = 0 then [len % 128]
    else (len % 128 + 128) :: getVarintAux fuel (len / 128)

/-- Embedding of `AlsPacket::get_varint(length: u16)`: a base-128
little-endian varint that is empty for `length = 0` (the loop body never
runs). -/
def AlsPacket.getVarint (len : Nat) : Bytes := getVarintAux len len

/-- Embedding of the final step of `AlsPacket::to_bytes`: overwrite the
two placeholder bytes with the big-endian length of everything after
them (`((bytes.len() - 2) as u16).to_be_bytes()`). -/
def writeLenHeader (bytes : Bytes) : Bytes :=
  u16BeBytes ((bytes.length - 2) % 65536) ++ bytes.drop 2

/-- Embedding of `AlsPacket::to_bytes`.  The result is `none` when the
Rust code panics: for `AuthenticateRequest` the expressions `varint[0]`
and `varint[1]` index the varint of `token.len() as u16` and are
out of bounds for short tokens.  The `u8` additions `varint[0] + 7` and
`varint[0] + 3` are taken modulo 256 (release-mode wrapping). -/
def AlsPacket.toBytes : AlsPacket → Option Bytes
  | .authenticateRequest token =>
    let varint := AlsPacket.getVarint (token.length % 65536)
    match varint.get? 0, varint.get? 1 with
    | some v0, some v1 =>
      some (writeLenHeader
        ([0x00, 0x00] ++ magicDelimiter ++
         [(v0 + 7) % 256, v1] ++ [0x82, 0x01] ++ [(v0 + 3) % 256, v1] ++
         [0x0a] ++ varint ++ token))
    | _, _ => none
  | .joinRequest roomId =>
    let varint := AlsPacket.getVarint (roomId.length % 65536)
    some (writeLenHeader
      ([0x00, 0x00] ++ magicDelimiter ++ [0x31, 0x9a, 0x01, 0x2e] ++
       [0x0a] ++ varint ++ roomId))
  | .keepAliveRequest =>
    some (writeLenHeader ([0x00, 0x00] ++ magicDelimiter ++ keepAliveMagic))

/-- Sanity check mirroring the unit test `test_protobuf_length`:
`get_varint(614) = [0xe6, 0x04]`. -/
theorem getVarint_614 : AlsPacket.getVarint 614 = [0xe6, 0x04] := by decide

/-- C5 counterexample: `KeepAliveRequest.to_bytes()` does not return
`00 03 00 48 01`; the encoder prepends the magic delimiter `00 82 01` to
every packet body and the length prefix is therefore `00 06`. -/
theorem keepAlive_toBytes_ne_claimed :
    AlsPacket.toBytes .keepAliveRequest ≠ some [0x00, 0x03, 0x00, 0x48, 0x01] := by
  decide

/-- C5 (amended): `KeepAliveRequest.to_bytes()` returns exactly
`00 06 00 82 01 00 48 01`: the magic delimiter `00 82 01` followed by the
keep-alive body `00 48 01`, prefixed with a 2-byte big-endian length that
counts only the bytes after the length field. -/
theorem keepAlive_toBytes :
    AlsPacket.toBytes .keepAliveRequest =
      some [0x00, 0x06, 0x00, 0x82, 0x01, 0x00, 0x48, 0x01] := by
  decide

/-- Helper: a varint of a length below 128 has at most one byte, and is
empty exactly for length zero. -/
theorem getVarint_small (n : Nat) (h : n < 128) :
    AlsPacket.getVarint n = if n = 0 then [] else [n] := by
  rcases Nat.eq_zero_or_pos n with h0 | h0
  · simp [AlsPacket.getVarint, getVarintAux, h0]
  · obtain ⟨m, rfl⟩ := Nat.exists_eq_succ_of_ne_zero (Nat.pos_iff_ne_zero.mp h0)
    simp [AlsPacket.getVarint, getVarintAux, Nat.div_eq_of_lt h, Nat.mod_eq_of_lt h]

/-- C9: for every token shorter than 128 bytes,
`get_varint(token.len() as u16)` has at most one byte (zero bytes for the
empty token), hence `varint[1]` (or, for the empty token, `varint[0]`) is
an out-of-bounds index and `AuthenticateRequest::to_bytes` panics. -/
theorem authenticate_toBytes_short_token_panics (token : Bytes)
    (h : token.length < 128) :
    AlsPacket.toBytes (.authenticateRequest token) = none ∧
      (AlsPacket.getVarint (token.length % 65536)).length ≤ 1 ∧
      (token.length = 0 → AlsPacket.getVarint (token.length % 65536) = []) := by
  have hm : token.length % 65536 = token.length :=
    Nat.mod_eq_of_lt (lt_trans h (by norm_num))
  have hv := getVarint_small token.length h
  refine ⟨?_, ?_, ?_⟩
  · rcases Nat.eq_zero_or_pos token.length with h0 | h0
    · simp [AlsPacket.toBytes, hm, h0, AlsPacket.getVarint, getVarintAux]
    · have hne : token.length ≠ 0 := Nat.pos_iff_ne_zero.mp h0
      simp [AlsPacket.toBytes, hm, hv, hne]
  · rw [hm, hv]; split <;> simp
  · intro h0; rw [hm, hv]; simp [h0]

/-- C9 witness: a concrete 5-byte token `"aaaaa"` makes
`AuthenticateRequest::to_bytes` panic. -/
theorem authenticate_toBytes_short_token_panics_witness :
    (List.replicate 5 97 : Bytes).length < 128 ∧
      (AlsPacket.toBytes (.authenticateRequest (List.replicate 5 97)) = none ∧
        (AlsPacket.getVarint ((List.replicate 5 97 : Bytes).length % 65536)).length ≤ 1 ∧
        ((List.replicate 5 97 : Bytes).length = 0 →
          AlsPacket.getVarint ((List.replicate 5 97 : Bytes).length % 65536) = [])) :=
  ⟨by decide, authenticate_toBytes_short_token_panics (List.replicate 5 97) (by decide)⟩

/-! ## Protobuf wire primitives

Modelled from the spec: the DataPack codec "uses the protobuf wire
format"; these are the standard base-128 varint and tag/length encoding
steps used by prost (`encode_varint`, `decode_varint`, `encode_key`). -/

/-- Fuel-indexed body of the protobuf varint encoder; the fuel only
serves structural recursion (the value shrinks by a factor 128 per step,
so fuel equal to the value is always sufficient). -/
def encodeVarintAux : Nat → Nat → Bytes
  | 0, n => [n]
  | fuel + 1, n =>
    if n < 128 then [n]
    else (n % 128 + 128) :: encodeVarintAux fuel (n / 128)

/-- Modelled from the spec: prost `encode_varint` — little-endian
base-128 groups, continuation bit on every byte but the last. -/
def encodeVarint (n : Nat) : Bytes := encodeVarintAux n n

/-- Modelled from the spec: prost `decode_varint` — accumulates 7-bit
groups, rejecting encodings that would shift past 64 bits. -/
def decodeVarintAux : Bytes → Nat → Nat → Option (Nat × Bytes)
  | [], _, _ => none
  | b :: rest, shift, acc =>
    if b < 128 then some (acc + b % 128 * 2 ^ shift, rest)
    else if 63 ≤ shift then none
    else decodeVarintAux rest (shift + 7) (acc + b % 128 * 2 ^ shift)

/-- Varint decoding entry point. -/
def decodeVarint (bs : Bytes) : Option (Nat × Bytes) := decodeVarintAux bs 0 0

/-- Fuel irrelevance of the varint encoder: any fuel at least the value
gives the same bytes. -/
theorem encodeVarintAux_irrel (f : Nat) :
    ∀ f' n, n ≤ f → n ≤ f' → encodeVarintAux f n = encodeVarintAux f' n := by
  induction f using Nat.strong_induction_on with
  | _ f ih =>
    intro f' n hf hf'
    match f, f' with
    | 0, f' =>
      have hn : n = 0 := Nat.le_zero.mp hf
      subst hn
      cases f' <;> simp [encodeVarintAux]
    | f + 1, 0 =>
      have hn : n = 0 := Nat.le_zero.mp hf'
      subst hn
      simp [encodeVarintAux]
    | f + 1, g + 1 =>
      rw [encodeVarintAux, encodeVarintAux]
      by_cases hn : n < 128
      · simp [hn]
      · simp only [hn, if_false]
        have hdiv : n / 128 < n := Nat.div_lt_self (by omega) (by norm_num)
        rw [ih f (by omega) g (n / 128) (by omega) (by omega)]

/-- Closed form of the varint encoder for one-byte values. -/
theorem encodeVarint_small (n : Nat) (h : n < 128) : encodeVarint n = [n] := by
  cases n with
  | zero => rfl
  | succ m => simp [encodeVarint, encodeVarintAux, h]

/-- One unfolding step of the varint encoder for multi-byte values. -/
theorem encodeVarint_step (n : Nat) (h : 128 ≤ n) :
    encodeVarint n = (n % 128 + 128) :: encodeVarint (n / 128) := by
  obtain ⟨m, rfl⟩ : ∃ m, n = m + 1 := ⟨n - 1, by omega⟩
  rw [encodeVarint, encodeVarintAux]
  simp only [show ¬ (m + 1 < 128) by omega, if_false]
  rw [encodeVarint]
  have hdiv : (m + 1) / 128 < m + 1 := Nat.div_lt_self (by omega) (by norm_num)
  rw [encodeVarintAux_irrel m ((m + 1) / 128) ((m + 1) / 128) (by omega) le_rfl]

/-- Core roundtrip of the varint codec, with explicit shift accounting. -/
theorem decodeVarintAux_encodeVarintAux (fuel n : Nat) (hf : n ≤ fuel)
    (rest : Bytes) (shift acc : Nat) (hs : n < 2 ^ (64 - shift)) (hsh : shift ≤ 63) :
    decodeVarintAux (encodeVarintAux fuel n ++ rest) shift acc =
      some (acc + n * 2 ^ shift, rest) := by
  induction fuel generalizing n shift acc with
  | zero =>
    interval_cases n
    simp [encodeVarintAux, decodeVarintAux]
  | succ fuel ih =>
    by_cases hn : n < 128
    · have hmod : n % 128 = n := Nat.mod_eq_of_lt hn
      simp [encodeVarintAux, decodeVarintAux, hn, hmod]
    · have hshift : shift ≤ 56 := by
        by_contra hcon
        have h57 : 57 ≤ shift := by omega
        have : 64 - shift ≤ 7 := by omega
        have : (2 : Nat) ^ (64 - shift) ≤ 2 ^ 7 :=
          Nat.pow_le_pow_right (by norm_num) this
        omega
      have hb : ¬ (n % 128 + 128 < 128) := by omega
      have hb2 : ¬ (63 ≤ shift) := by omega
      have hdivfuel : n / 128 ≤ fuel := by
        have := Nat.div_lt_self (show 0 < n by omega) (show 1 < 128 by norm_num)
        omega
      have hdivbound : n / 128 < 2 ^ (64 - (shift + 7)) := by
        rw [Nat.div_lt_iff_lt_mul (show (0 : Nat) < 128 by norm_num)]
        have hsplit : 64 - shift = (64 - (shift + 7)) + 7 := by omega
        calc n < 2 ^ (64 - shift) := hs
          _ = 2 ^ (64 - (shift + 7)) * 128 := by rw [hsplit, pow_add]; norm_num
      rw [encodeVarintAux]
      simp only [hn, if_false, List.cons_append]
      rw [decodeVarintAux]
      simp only [hb, if_false, hb2, if_false]
      rw [ih _ hdivfuel _ _ hdivbound (by omega)]
      have hmm : (n % 128 + 128) % 128 = n % 128 := by omega
      have key : acc + (n % 128 + 128) % 128 * 2 ^ shift + n / 128 * 2 ^ (shift + 7) =
          acc + n * 2 ^ shift := by
        rw [hmm, pow_add]
        have h1 := Nat.mod_add_div n 128
        have h2 : n % 128 * 2 ^ shift + n / 128 * (2 ^ shift * 2 ^ 7) = n * 2 ^ shift := by
          calc n % 128 * 2 ^ shift + n / 128 * (2 ^ shift * 2 ^ 7)
              = (n % 128 + 128 * (n / 128)) * 2 ^ shift := by ring
            _ = n * 2 ^ shift := by rw [h1]
        omega
      rw [key]

/-- Roundtrip of the varint codec for any 64-bit value. -/
theorem decodeVarint_encodeVarint (n : Nat) (h : n < 2 ^ 64) (rest : Bytes) :
    decodeVarint (encodeVarint n ++ rest) = some (n, rest) := by
  have := decodeVarintAux_encodeVarintAux n n (le_refl n) rest 0 0 (by simpa using h)
    (by norm_num)
  simpa [decodeVarint, encodeVarint] using this

/-- Encoding of a protobuf key (prost `encode_key`): field number shifted
left by three bits, or-ed with the wire type. -/
def encodeKey (fn wt : Nat) : Bytes := encodeVarint (fn * 8 + wt)

/-- Encoding of a varint-typed field: key with wire type 0, then the value. -/
def encodeVarintField (fn v : Nat) : Bytes := encodeKey fn 0 ++ encodeVarint v

/-- Encoding of a length-delimited field: key with wire type 2, the
payload length as a varint, then the payload. -/
def encodeLenField (fn : Nat) (payload : Bytes) : Bytes :=
  encodeKey fn 2 ++ encodeVarint payload.length ++ payload

/-- Wire-level value of one decoded protobuf field.  Fixed 32/64-bit
fields only ever get skipped by the decoders in this file, so their
contents are not retained. -/
inductive WireVal
  | vint (v : Nat)
  | lenPayload (bs : Bytes)
  | skip64
  | skip32
deriving DecidableEq

/-- Modelled from the spec: one step of the prost decode loop — read a
key, then read (or skip) the field body according to the wire type.
Deprecated group wire types are rejected. -/
def decodeField (bs : Bytes) : Option ((Nat × WireVal) × Bytes) :=
  match decodeVarint bs with
  | none => none
  | some (tag, rest) =>
    let fn := tag / 8
    let wt := tag % 8
    if fn = 0 then none
    else if wt = 0 then
      match decodeVarint rest with
      | none => none
      | some (v, rest2) => some ((fn, .vint v), rest2)
    else if wt = 1 then
      if 8 ≤ rest.length then some ((fn, .skip64), rest.drop 8) else none
    else if wt = 2 then
      match decodeVarint rest with
      | none => none
      | some (len, rest2) =>
        if len ≤ rest2.length then
          some ((fn, .lenPayload (rest2.take len)), rest2.drop len)
        else none
    else if wt = 5 then
      if 4 ≤ rest.length then some ((fn, .skip32), rest.drop 4) else none
    else none

/-- Fuel-indexed loop reading every field of a message body; the fuel is
sufficient whenever it is at least the byte length, since each field
consumes at least one byte. -/
def decodeFieldsAux : Nat → Bytes → Option (List (Nat × WireVal))
  | 0, bs => if bs.isEmpty then some [] else none
  | fuel + 1, bs =>
    if bs.isEmpty then some []
    else
      match decodeField bs with
      | none => none
      | some (f, rest) =>
        match decodeFieldsAux fuel rest with
        | none => none
        | some fs => some (f :: fs)

/-- Parsing of a whole message body into its field list. -/
def decodeFields (bs : Bytes) : Option (List (Nat × WireVal)) :=
  decodeFieldsAux bs.length bs

/-- Progress: a successful varint read consumes at least one byte. -/
theorem decodeVarintAux_length (bs : Bytes) (shift acc v : Nat) (rest : Bytes)
    (h : decodeVarintAux bs shift acc = some (v, rest)) :
    rest.length < bs.length := by
  induction bs generalizing shift acc with
  | nil => simp [decodeVarintAux] at h
  | cons b tl ih =>
    rw [decodeVarintAux] at h
    by_cases hb : b < 128
    · simp only [hb, if_true, Option.some.injEq, Prod.mk.injEq] at h
      obtain ⟨-, rfl⟩ := h
      simp
    · simp only [hb, if_false] at h
      by_cases hs : 63 ≤ shift
      · simp [hs] at h
      · simp only [hs, if_false] at h
        have := ih _ _ h
        simp only [List.length_cons]
        omega

/-- Progress: a successful field read consumes at least one byte. -/
theorem decodeField_length (bs : Bytes) (f : Nat × WireVal) (rest : Bytes)
    (h : decodeField bs = some (f, rest)) : rest.length < bs.length := by
  rw [decodeField] at h
  rcases htag : decodeVarint bs with - | ⟨tag, rest1⟩
  · rw [htag] at h; simp at h
  · rw [htag] at h
    have h1 : rest1.length < bs.length := decodeVarintAux_length bs 0 0 tag rest1 htag
    simp only at h
    by_cases hfn : tag / 8 = 0
    · simp [hfn] at h
    · simp only [hfn, if_false] at h
      by_cases hw0 : tag % 8 = 0
      · simp only [hw0, if_true] at h
        rcases hv : decodeVarint rest1 with - | ⟨v, rest2⟩
        · rw [hv] at h; simp at h
        · rw [hv] at h
          have h2 : rest2.length < rest1.length :=
            decodeVarintAux_length rest1 0 0 v rest2 hv
          simp only [Option.some.injEq, Prod.mk.injEq] at h
          obtain ⟨-, rfl⟩ := h
          omega
      · simp only [hw0, if_false] at h
        by_cases hw1 : tag % 8 = 1
        · simp only [hw1, if_true] at h
          by_cases hl : 8 ≤ rest1.length
          · simp only [hl, if_true, Option.some.injEq, Prod.mk.injEq] at h
            obtain ⟨-, rfl⟩ := h
            simp only [List.length_drop]
            omega
          · simp [hl] at h
        · simp only [hw1, if_false] at h
          by_cases hw2 : tag % 8 = 2
          · simp only [hw2, if_true] at h
            rcases hv : decodeVarint rest1 with - | ⟨len, rest2⟩
            · rw [hv] at h; simp at h
            · rw [hv] at h
              have h2 : rest2.length < rest1.length :=
                decodeVarintAux_length rest1 0 0 len rest2 hv
              simp only at h
              by_cases hle : len ≤ rest2.length
              · simp only [hle, if_true, Option.some.injEq, Prod.mk.injEq] at h
                obtain ⟨-, rfl⟩ := h
                simp only [List.length_drop]
                omega
              · simp [hle] at h
          · simp only [hw2, if_false] at h
            by_cases hw5 : tag % 8 = 5
            · simp only [hw5, if_true] at h
              by_cases hl : 4 ≤ rest1.length
              · simp only [hl, if_true, Option.some.injEq, Prod.mk.injEq] at h
                obtain ⟨-, rfl⟩ := h
                simp only [List.length_drop]
                omega
              · simp [hl] at h
            · simp [hw5] at h

/-- Fuel irrelevance for the field loop: any two sufficient fuels give
the same result. -/
theorem decodeFieldsAux_fuel2 (fuel fuel' : Nat) (bs : Bytes)
    (h : bs.length ≤ fuel) (h' : bs.length ≤ fuel') :
    decodeFieldsAux fuel bs = decodeFieldsAux fuel' bs := by
  induction fuel generalizing fuel' bs with
  | zero =>
    have hnil : bs = [] := List.length_eq_zero.mp (Nat.le_zero.mp h)
    subst hnil
    cases fuel' <;> simp [decodeFieldsAux]
  | succ fuel ih =>
    cases bs with
    | nil => cases fuel' <;> simp [decodeFieldsAux]
    | cons b tl =>
      cases fuel' with
      | zero => simp at h'
      | succ f' =>
        rw [decodeFieldsAux, decodeFieldsAux]
        simp only [List.isEmpty_cons, Bool.false_eq_true, if_false]
        rcases hf : decodeField (b :: tl) with - | ⟨f, rest⟩
        · rfl
        · have hlt : rest.length < (b :: tl : Bytes).length := decodeField_length _ _ _ hf
          simp only [List.length_cons] at hlt h h'
          dsimp only
          rw [ih f' rest (by omega) (by omega)]

/-- Fuel irrelevance for the field loop: any fuel at least the byte
length computes `decodeFields`. -/
theorem decodeFieldsAux_fuel (fuel : Nat) (bs : Bytes) (h : bs.length ≤ fuel) :
    decodeFieldsAux fuel bs = decodeFields bs :=
  decodeFieldsAux_fuel2 fuel bs.length bs h le_rfl

/-- Consecutive-field parsing: when the head of the input parses as one
field, the field list is that field followed by the fields of the rest. -/
theorem decodeFields_cons (bs : Bytes) (f : Nat × WireVal) (rest : Bytes)
    (h : decodeField bs = some (f, rest)) :
    decodeFields bs = (decodeFields rest).map (fun fs => f :: fs) := by
  cases bs with
  | nil =>
    rw [decodeField, decodeVarint, decodeVarintAux] at h
    simp at h
  | cons b tl =>
    rw [decodeFields]
    rw [show (b :: tl : Bytes).length = tl.length + 1 from rfl]
    rw [decodeFieldsAux]
    simp only [List.isEmpty_cons, Bool.false_eq_true, if_false, h]
    have hlt : rest.length < (b :: tl : Bytes).length := decodeField_length _ _ _ h
    simp only [List.length_cons] at hlt
    rw [decodeFieldsAux_fuel tl.length rest (by omega)]
    rcases hr : decodeFields rest with - | fs <;> simp

/-- Parsing the empty body yields no fields. -/
theorem decodeFields_nil : decodeFields [] = some [] := rfl

/-- A varint never encodes to the empty byte string. -/
theorem encodeVarint_ne_nil (n : Nat) : encodeVarint n ≠ [] := by
  rw [encodeVarint]
  cases n with
  | zero => simp [encodeVarintAux]
  | succ m =>
    rw [encodeVarintAux]
    split <;> simp

/-- Parsing a varint-typed field chunk. -/
theorem decodeField_varintChunk (fn v : Nat) (rest : Bytes)
    (h1 : 1 ≤ fn) (h2 : fn * 8 + 2 < 2 ^ 64) (hv : v < 2 ^ 64) :
    decodeField (encodeVarintField fn v ++ rest) = some ((fn, .vint v), rest) := by
  rw [encodeVarintField, encodeKey, List.append_assoc]
  rw [decodeField]
  rw [decodeVarint_encodeVarint (fn * 8 + 0) (by omega) _]
  have hfn0 : ¬ ((fn * 8 + 0) / 8 = 0) := by omega
  have hwt : (fn * 8 + 0) % 8 = 0 := by omega
  have hdiv : (fn * 8 + 0) / 8 = fn := by omega
  simp only [hfn0, if_false, hwt, if_true]
  rw [decodeVarint_encodeVarint v hv rest, hdiv]

/-- Parsing a length-delimited field chunk. -/
theorem decodeField_lenChunk (fn : Nat) (payload rest : Bytes)
    (h1 : 1 ≤ fn) (h2 : fn * 8 + 2 < 2 ^ 64) (hlen : payload.length < 2 ^ 64) :
    decodeField (encodeLenField fn payload ++ rest) =
      some ((fn, .lenPayload payload), rest) := by
  rw [encodeLenField, encodeKey, List.append_assoc, List.append_assoc]
  rw [decodeField]
  rw [decodeVarint_encodeVarint (fn * 8 + 2) h2 _]
  have hfn0 : ¬ ((fn * 8 + 2) / 8 = 0) := by omega
  have hwt0 : ¬ ((fn * 8 + 2) % 8 = 0) := by omega
  have hwt1 : ¬ ((fn * 8 + 2) % 8 = 1) := by omega
  have hwt2 : (fn * 8 + 2) % 8 = 2 := by omega
  have hdiv : (fn * 8 + 2) / 8 = fn := by omega
  simp only [hfn0, if_false, hwt0, hwt1, hwt2, if_true]
  rw [decodeVarint_encodeVarint payload.length hlen _, hdiv]
  have hle : payload.length ≤ (payload ++ rest).length := by simp
  simp only [hle, if_true, List.take_left, List.drop_left]
  norm_num

/-- Parsing a varint field chunk at the head of a field stream. -/
theorem decodeFields_varintChunk (fn v : Nat) (rest : Bytes)
    (h1 : 1 ≤ fn) (h2 : fn * 8 + 2 < 2 ^ 64) (hv : v < 2 ^ 64) :
    decodeFields (encodeVarintField fn v ++ rest) =
      (decodeFields rest).map (fun fs => (fn, WireVal.vint v) :: fs) :=
  decodeFields_cons _ _ _ (decodeField_varintChunk fn v rest h1 h2 hv)

/-- Parsing a length-delimited field chunk at the head of a field stream. -/
theorem decodeFields_lenChunk (fn : Nat) (payload rest : Bytes)
    (h1 : 1 ≤ fn) (h2 : fn * 8 + 2 < 2 ^ 64) (hlen : payload.length < 2 ^ 64) :
    decodeFields (encodeLenField fn payload ++ rest) =
      (decodeFields rest).map (fun fs => (fn, WireVal.lenPayload payload) :: fs) :=
  decodeFields_cons _ _ _ (decodeField_lenChunk fn payload rest h1 h2 hlen)

/-- Sequential field merging, mirroring the prost generated decode loop
applied to an already-parsed field list. -/
def runMerge {α : Type} (merge : α → Nat × WireVal → Option α) (init : α) :
    List (Nat × WireVal) → Option α
  | [] => some init
  | f :: tl =>
    match merge init f with
    | none => none
    | some a => runMerge merge a tl

/-- Message decoding: parse the whole body into fields and merge them
into the default message. -/
def decodeMessage {α : Type} (merge : α → Nat × WireVal → Option α) (init : α)
    (bs : Bytes) : Option α :=
  match decodeFields bs with
  | none => none
  | some fs => runMerge merge init fs

/-- Bound on the byte length of a varint: values below `2 ^ (7 * k)`
encode into at most `k + 1` bytes. -/
theorem encodeVarintAux_length_le (k : Nat) :
    ∀ fuel n, n ≤ fuel → n < 2 ^ (7 * k) → (encodeVarintAux fuel n).length ≤ k + 1 := by
  induction k with
  | zero =>
    intro fuel n hf hn
    have : n = 0 := by simpa using hn
    subst this
    cases fuel <;> simp [encodeVarintAux]
  | succ k ih =>
    intro fuel n hf hn
    cases fuel with
    | zero =>
      have : n = 0 := by omega
      subst this
      simp [encodeVarintAux]
    | succ fuel =>
      rw [encodeVarintAux]
      by_cases hlt : n < 128
      · simp [hlt]
      · simp only [hlt, if_false, List.length_cons]
        have hdf : n / 128 ≤ fuel := by
          have := Nat.div_lt_self (show 0 < n by omega) (show 1 < 128 by norm_num)
          omega
        have hdb : n / 128 < 2 ^ (7 * k) := by
          rw [Nat.div_lt_iff_lt_mul (show (0 : Nat) < 128 by norm_num)]
          calc n < 2 ^ (7 * (k + 1)) := hn
            _ = 2 ^ (7 * k) * 128 := by rw [show 7 * (k + 1) = 7 * k + 7 by ring, pow_add]; norm_num
        have := ih fuel (n / 128) hdf hdb
        omega

/-- Bound on the byte length of a varint of a 64-bit value. -/
theorem encodeVarint_length_le (n : Nat) (h : n < 2 ^ 64) :
    (encodeVarint n).length ≤ 11 :=
  encodeVarintAux_length_le 10 n n le_rfl (lt_of_lt_of_le h (by norm_num))

/-! ## The ALS message model

Modelled from the spec (§3 data model and §4.A field numbers).  The
`datapack.proto` schema and its prost-generated module are not among the
given sources; the sub-message field numbers follow the field-number
comments in `is_known_field_number`
(`src/crates/packet/src/als/proto/mod.rs`) where they are recorded
(InstantiateObject: current_player=3, room_all=4, player_id=7,
object_id=8, owner_id=9, init_data=11; UpdateObject player_id=6; Room
id=1; JoinRoomResponse room=1, joined_at=2; AuthorizeResponse reuses 1
and 2), and are chosen as documented where they are not
(InstantiateObject.prefab_name=10; UpdateObject object_id=1, method=2,
payload=5, current_player=3, room_all=4; DestroyObject object_id=1 with
UpdateObject's target numbers). -/

/-- Target of an object message (`CurrentPlayer`, `RoomAll`, `PlayerId`);
the three Rust oneofs have identical shapes and are shared here. -/
inductive ObjTarget
  | currentPlayer
  | roomAll (roomId : Bytes)
  | playerId (playerId : Bytes)
deriving DecidableEq

/-- Message `Room { id: bytes = 1, started_at: i64 = 2, ended_at: i64 = 3 }`. -/
structure Room where
  id : Bytes
  startedAt : Int
  endedAt : Int
deriving DecidableEq

/-- Message `InstantiateObject` (target oneof 3/4/7, object_id=8,
owner_id=9, prefab_name=10, init_data=11). -/
structure InstantiateObject where
  target : Option ObjTarget
  objectId : Int
  ownerId : Bytes
  prefabName : Bytes
  initData : Bytes
deriving DecidableEq

/-- Message `UpdateObject` (object_id=1, method=2, target oneof 3/4/6,
payload=5). -/
structure UpdateObject where
  target : Option ObjTarget
  objectId : Int
  method : Int
  payload : Bytes
deriving DecidableEq

/-- Message `DestroyObject` (object_id=1, target oneof 3/4/6). -/
structure DestroyObject where
  target : Option ObjTarget
  objectId : Int
deriving DecidableEq

/-- Message `AuthorizeResponse { player_id: bytes = 1, role: i32 = 2 }`. -/
structure AuthorizeResponse where
  playerId : Bytes
  role : Int
deriving DecidableEq

/-- Message `JoinRoomResponse { room: Room = 1, joined_at: i64 = 2 }`. -/
structure JoinRoomResponse where
  room : Option Room
  joinedAt : Int
deriving DecidableEq

/-- The `DataFrame.message` oneof with its spec-fixed field numbers
(instantiate_object=128, update_object=129, destroy_object=130,
room=143, authorize_response=144, join_room_response=147). -/
inductive DataFrameMessage
  | instantiateObject (o : InstantiateObject)
  | updateObject (o : UpdateObject)
  | destroyObject (o : DestroyObject)
  | room (r : Room)
  | authorizeResponse (a : AuthorizeResponse)
  | joinRoomResponse (j : JoinRoomResponse)
deriving DecidableEq

/-- Message `DataFrame`: just the optional oneof. -/
structure DataFrame where
  message : Option DataFrameMessage
deriving DecidableEq

/-- The `DataPack.control` oneof with its spec-fixed field numbers
(data=2, pong=10, segment_started_at=14, cache_ended=15). -/
inductive DataPackControl
  | data (b : Bool)
  | pong (b : Bool)
  | segmentStartedAt (v : Int)
  | cacheEnded (b : Bool)
deriving DecidableEq

/-- Message `DataPack`: repeated `frames = 16` plus the control oneof. -/
structure DataPack where
  control : Option DataPackControl
  frames : List DataFrame
deriving DecidableEq

/-! ### Encoders (prost emission, with the source's custom DataPack order) -/

/-- Encoding of a non-oneof `bytes` field: skipped when empty (prost
default skipping). -/
def encodeBytesField (fn : Nat) (bs : Bytes) : Bytes :=
  if bs.isEmpty then [] else encodeLenField fn bs

/-- Encoding of an `i64` varint field: skipped when zero; negative values
are sign-extended to their two's-complement 64-bit pattern. -/
def encodeI64Field (fn : Nat) (v : Int) : Bytes :=
  if v = 0 then [] else encodeVarintField fn (v % (2 ^ 64 : Int)).toNat

/-- Encoding of an `i32` varint field: same wire shape as `i64` (prost
sign-extends `int32` to 64 bits). -/
def encodeI32Field (fn : Nat) (v : Int) : Bytes := encodeI64Field fn v

/-- Encoding of the `RoomAll { room_id: bytes = 1 }` message body. -/
def encodeRoomAll (roomId : Bytes) : Bytes := encodeBytesField 1 roomId

/-- Encoding of a target oneof with the host message's three field
numbers; oneof fields are always emitted when set. -/
def encodeTargetField (fnCur fnRoom fnPid : Nat) : Option ObjTarget → Bytes
  | none => []
  | some .currentPlayer => encodeLenField fnCur []
  | some (.roomAll roomId) => encodeLenField fnRoom (encodeRoomAll roomId)
  | some (.playerId playerId) => encodeLenField fnPid playerId

/-- Encoding of a `Room` message body. -/
def Room.encode (r : Room) : Bytes :=
  encodeBytesField 1 r.id ++ encodeI64Field 2 r.startedAt ++ encodeI64Field 3 r.endedAt

/-- Encoding of an `InstantiateObject` message body. -/
def InstantiateObject.encode (o : InstantiateObject) : Bytes :=
  encodeTargetField 3 4 7 o.target ++ encodeI32Field 8 o.objectId ++
    encodeBytesField 9 o.ownerId ++ encodeBytesField 10 o.prefabName ++
    encodeBytesField 11 o.initData

/-- Encoding of an `UpdateObject` message body. -/
def UpdateObject.encode (o : UpdateObject) : Bytes :=
  encodeI32Field 1 o.objectId ++ encodeI32Field 2 o.method ++
    encodeTargetField 3 4 6 o.target ++ encodeBytesField 5 o.payload

/-- Encoding of a `DestroyObject` message body. -/
def DestroyObject.encode (o : DestroyObject) : Bytes :=
  encodeI32Field 1 o.objectId ++ encodeTargetField 3 4 6 o.target

/-- Encoding of an `AuthorizeResponse` message body. -/
def AuthorizeResponse.encode (a : AuthorizeResponse) : Bytes :=
  encodeBytesField 1 a.playerId ++ encodeI32Field 2 a.role

/-- Encoding of a `JoinRoomResponse` message body. -/
def JoinRoomResponse.encode (j : JoinRoomResponse) : Bytes :=
  (match j.room with
   | none => []
   | some r => encodeLenField 1 r.encode) ++ encodeI64Field 2 j.joinedAt

/-- Encoding of a `DataFrame` message body (prost `encode_to_vec`): the
oneof alone. -/
def DataFrame.encode (f : DataFrame) : Bytes :=
  match f.message with
  | none => []
  | some (.instantiateObject o) => encodeLenField 128 o.encode
  | some (.updateObject o) => encodeLenField 129 o.encode
  | some (.destroyObject o) => encodeLenField 130 o.encode
  | some (.room r) => encodeLenField 143 r.encode
  | some (.authorizeResponse a) => encodeLenField 144 a.encode
  | some (.joinRoomResponse j) => encodeLenField 147 j.encode

/-- Embedding of `encode_frame` (`src/crates/packet/src/als/proto/mod.rs`
lines 27-32): key for field 16, varint byte length, then the frame's
`encode_to_vec` bytes. -/
def encodeFrame (f : DataFrame) : Bytes := encodeLenField 16 f.encode

/-- Encoding of the control oneof of a `DataPack`, exactly as
`encode_data_pack_custom_order` writes it: booleans as varint 0/1 and
`SegmentStartedAt` as `*value as u64`. -/
def encodeControl : Option DataPackControl → Bytes
  | none => []
  | some (.data b) => encodeVarintField 2 (if b then 1 else 0)
  | some (.pong b) => encodeVarintField 10 (if b then 1 else 0)
  | some (.segmentStartedAt v) => encodeVarintField 14 (v % (2 ^ 64 : Int)).toNat
  | some (.cacheEnded b) => encodeVarintField 15 (if b then 1 else 0)

/-- Embedding of `encode_data_pack_custom_order`
(`src/crates/packet/src/als/proto/mod.rs` lines 36-73): every frame entry
first (field number 16), then the control varint. -/
def encodeDataPackCustomOrder (dp : DataPack) : Bytes :=
  (dp.frames.map encodeFrame).flatten ++ encodeControl dp.control

/-! ### Decoders (prost generated merge, spec-modelled) -/

/-- Merge step for `RoomAll` (state: the room_id). -/
def mergeRoomAll (roomId : Bytes) : Nat × WireVal → Option Bytes
  | (1, .lenPayload bs) => some bs
  | (1, _) => none
  | _ => some roomId

/-- Decoding of a `RoomAll` body. -/
def decodeRoomAll (bs : Bytes) : Option Bytes := decodeMessage mergeRoomAll [] bs

/-- Decoding of a `CurrentPlayer` body: no known fields, everything is
skipped. -/
def decodeCurrentPlayer (bs : Bytes) : Option Unit :=
  decodeMessage (fun _ _ => some ()) () bs

/-- Merge step for `Room`. -/
def Room.mergeField (r : Room) : Nat × WireVal → Option Room
  | (1, .lenPayload bs) => some { r with id := bs }
  | (1, _) => none
  | (2, .vint v) => some { r with startedAt := u64AsI64 v }
  | (2, _) => none
  | (3, .vint v) => some { r with endedAt := u64AsI64 v }
  | (3, _) => none
  | _ => some r

/-- Decoding of a `Room` body. -/
def Room.decode (bs : Bytes) : Option Room :=
  decodeMessage Room.mergeField ⟨[], 0, 0⟩ bs

/-- Merge step for `InstantiateObject`. -/
def InstantiateObject.mergeField (o : InstantiateObject) :
    Nat × WireVal → Option InstantiateObject
  | (3, .lenPayload bs) =>
    (decodeCurrentPlayer bs).map (fun _ => { o with target := some .currentPlayer })
  | (3, _) => none
  | (4, .lenPayload bs) =>
    (decodeRoomAll bs).map (fun roomId => { o with target := some (.roomAll roomId) })
  | (4, _) => none
  | (7, .lenPayload bs) => some { o with target := some (.playerId bs) }
  | (7, _) => none
  | (8, .vint v) => some { o with objectId := u64AsI32 v }
  | (8, _) => none
  | (9, .lenPayload bs) => some { o with ownerId := bs }
  | (9, _) => none
  | (10, .lenPayload bs) => some { o with prefabName := bs }
  | (10, _) => none
  | (11, .lenPayload bs) => some { o with initData := bs }
  | (11, _) => none
  | _ => some o

/-- Decoding of an `InstantiateObject` body. -/
def InstantiateObject.decode (bs : Bytes) : Option InstantiateObject :=
  decodeMessage InstantiateObject.mergeField ⟨none, 0, [], [], []⟩ bs

/-- Merge step for `UpdateObject`. -/
def UpdateObject.mergeField (o : UpdateObject) : Nat × WireVal → Option UpdateObject
  | (1, .vint v) => some { o with objectId := u64AsI32 v }
  | (1, _) => none
  | (2, .vint v) => some { o with method := u64AsI32 v }
  | (2, _) => none
  | (3, .lenPayload bs) =>
    (decodeCurrentPlayer bs).map (fun _ => { o with target := some .currentPlayer })
  | (3, _) => none
  | (4, .lenPayload bs) =>
    (decodeRoomAll bs).map (fun roomId => { o with target := some (.roomAll roomId) })
  | (4, _) => none
  | (6, .lenPayload bs) => some { o with target := some (.playerId bs) }
  | (6, _) => none
  | (5, .lenPayload bs) => some { o with payload := bs }
  | (5, _) => none
  | _ => some o

/-- Decoding of an `UpdateObject` body. -/
def UpdateObject.decode (bs : Bytes) : Option UpdateObject :=
  decodeMessage UpdateObject.mergeField ⟨none, 0, 0, []⟩ bs

/-- Merge step for `DestroyObject`. -/
def DestroyObject.mergeField (o : DestroyObject) : Nat × WireVal → Option DestroyObject
  | (1, .vint v) => some { o with objectId := u64AsI32 v }
  | (1, _) => none
  | (3, .lenPayload bs) =>
    (decodeCurrentPlayer bs).map (fun _ => { o with target := some .currentPlayer })
  | (3, _) => none
  | (4, .lenPayload bs) =>
    (decodeRoomAll bs).map (fun roomId => { o with target := some (.roomAll roomId) })
  | (4, _) => none
  | (6, .lenPayload bs) => some { o with target := some (.playerId bs) }
  | (6, _) => none
  | _ => some o

/-- Decoding of a `DestroyObject` body. -/
def DestroyObject.decode (bs : Bytes) : Option DestroyObject :=
  decodeMessage DestroyObject.mergeField ⟨none, 0⟩ bs

/-- Merge step for `AuthorizeResponse`. -/
def AuthorizeResponse.mergeField (a : AuthorizeResponse) :
    Nat × WireVal → Option AuthorizeResponse
  | (1, .lenPayload bs) => some { a with playerId := bs }
  | (1, _) => none
  | (2, .vint v) => some { a with role := u64AsI32 v }
  | (2, _) => none
  | _ => some a

/-- Decoding of an `AuthorizeResponse` body. -/
def AuthorizeResponse.decode (bs : Bytes) : Option AuthorizeResponse :=
  decodeMessage AuthorizeResponse.mergeField ⟨[], 0⟩ bs

/-- Merge step for `JoinRoomResponse`; the nested room replaces any prior
value (canonical single-occurrence streams). -/
def JoinRoomResponse.mergeField (j : JoinRoomResponse) :
    Nat × WireVal → Option JoinRoomResponse
  | (1, .lenPayload bs) => (Room.decode bs).map (fun r => { j with room := some r })
  | (1, _) => none
  | (2, .vint v) => some { j with joinedAt := u64AsI64 v }
  | (2, _) => none
  | _ => some j

/-- Decoding of a `JoinRoomResponse` body. -/
def JoinRoomResponse.decode (bs : Bytes) : Option JoinRoomResponse :=
  decodeMessage JoinRoomResponse.mergeField ⟨none, 0⟩ bs

/-- Merge step for `DataFrame`: each oneof arm decodes its sub-message
and replaces the message (canonical single-occurrence streams). -/
def DataFrame.mergeField (f : DataFrame) : Nat × WireVal → Option DataFrame
  | (128, .lenPayload bs) =>
    (InstantiateObject.decode bs).map (fun o => ⟨some (.instantiateObject o)⟩)
  | (128, _) => none
  | (129, .lenPayload bs) =>
    (UpdateObject.decode bs).map (fun o => ⟨some (.updateObject o)⟩)
  | (129, _) => none
  | (130, .lenPayload bs) =>
    (DestroyObject.decode bs).map (fun o => ⟨some (.destroyObject o)⟩)
  | (130, _) => none
  | (143, .lenPayload bs) => (Room.decode bs).map (fun r => ⟨some (.room r)⟩)
  | (143, _) => none
  | (144, .lenPayload bs) =>
    (AuthorizeResponse.decode bs).map (fun a => ⟨some (.authorizeResponse a)⟩)
  | (144, _) => none
  | (147, .lenPayload bs) =>
    (JoinRoomResponse.decode bs).map (fun j => ⟨some (.joinRoomResponse j)⟩)
  | (147, _) => none
  | _ => some f

/-- Decoding of a `DataFrame` body. -/
def DataFrame.decode (bs : Bytes) : Option DataFrame :=
  decodeMessage DataFrame.mergeField ⟨none⟩ bs

/-- Merge step for `DataPack`: control arms replace the control, frame
entries are appended in order. -/
def DataPack.mergeField (dp : DataPack) : Nat × WireVal → Option DataPack
  | (2, .vint v) => some { dp with control := some (.data (v != 0)) }
  | (2, _) => none
  | (10, .vint v) => some { dp with control := some (.pong (v != 0)) }
  | (10, _) => none
  | (14, .vint v) => some { dp with control := some (.segmentStartedAt (u64AsI64 v)) }
  | (14, _) => none
  | (15, .vint v) => some { dp with control := some (.cacheEnded (v != 0)) }
  | (15, _) => none
  | (16, .lenPayload bs) =>
    (DataFrame.decode bs).map (fun f => { dp with frames := dp.frames ++ [f] })
  | (16, _) => none
  | _ => some dp

/-- Decoding of a `DataPack` body (`DataPack::decode`). -/
def DataPack.decode (bs : Bytes) : Option DataPack :=
  decodeMessage DataPack.mergeField ⟨none, []⟩ bs

/-! ### Well-formedness: value ranges matching the Rust types -/

/-- Byte strings coming from Rust `Vec<u8>`/`bytes` fields: byte values
below 256 and (generously) fewer than `2 ^ 32` bytes. -/
def bytesWF (bs : Bytes) : Bool :=
  decide (bs.length < 2 ^ 32) && bs.all (fun b => b < 256)

/-- Range of an `i64` value. -/
def i64WF (v : Int) : Bool := decide (-(2 ^ 63) ≤ v) && decide (v < 2 ^ 63)

/-- Range of an `i32` value. -/
def i32WF (v : Int) : Bool := decide (-(2 ^ 31) ≤ v) && decide (v < 2 ^ 31)

/-- Well-formedness lifted to an optional value. -/
def optWf {α : Type} (p : α → Bool) : Option α → Bool
  | none => true
  | some x => p x

/-- Well-formedness of a target. -/
def ObjTarget.wf : ObjTarget → Bool
  | .currentPlayer => true
  | .roomAll rid => bytesWF rid
  | .playerId pid => bytesWF pid

/-- Well-formedness of a `Room`. -/
def Room.wf (r : Room) : Bool :=
  bytesWF r.id && i64WF r.startedAt && i64WF r.endedAt

/-- Well-formedness of an `InstantiateObject`. -/
def InstantiateObject.wf (o : InstantiateObject) : Bool :=
  optWf ObjTarget.wf o.target && i32WF o.objectId && bytesWF o.ownerId &&
    bytesWF o.prefabName && bytesWF o.initData

/-- Well-formedness of an `UpdateObject`. -/
def UpdateObject.wf (o : UpdateObject) : Bool :=
  optWf ObjTarget.wf o.target && i32WF o.objectId && i32WF o.method &&
    bytesWF o.payload

/-- Well-formedness of a `DestroyObject`. -/
def DestroyObject.wf (o : DestroyObject) : Bool :=
  optWf ObjTarget.wf o.target && i32WF o.objectId

/-- Well-formedness of an `AuthorizeResponse`. -/
def AuthorizeResponse.wf (a : AuthorizeResponse) : Bool :=
  bytesWF a.playerId && i32WF a.role

/-- Well-formedness of a `JoinRoomResponse`. -/
def JoinRoomResponse.wf (j : JoinRoomResponse) : Bool :=
  optWf Room.wf j.room && i64WF j.joinedAt

/-- Well-formedness of a frame message. -/
def DataFrameMessage.wf : DataFrameMessage → Bool
  | .instantiateObject o => o.wf
  | .updateObject o => o.wf
  | .destroyObject o => o.wf
  | .room r => r.wf
  | .authorizeResponse a => a.wf
  | .joinRoomResponse j => j.wf

/-- Well-formedness of a frame. -/
def DataFrame.wf (f : DataFrame) : Bool := optWf DataFrameMessage.wf f.message

/-- Well-formedness of a control value. -/
def DataPackControl.wf : DataPackControl → Bool
  | .segmentStartedAt v => i64WF v
  | _ => true

/-- Well-formedness of a `DataPack`. -/
def DataPack.wf (dp : DataPack) : Bool :=
  optWf DataPackControl.wf dp.control && dp.frames.all DataFrame.wf

/-! ### Value-level roundtrips -/

/-- The 64-bit pattern of any integer is below `2 ^ 64`. -/
theorem int_emod_toNat_lt (v : Int) : (v % (2 ^ 64 : Int)).toNat < 2 ^ 64 := by
  have h1 : 0 ≤ v % (2 ^ 64 : Int) := Int.emod_nonneg v (by norm_num)
  have h2 : v % (2 ^ 64 : Int) < 2 ^ 64 := Int.emod_lt_of_pos v (by norm_num)
  omega

/-- Reading back the two's-complement pattern of an `i64` value. -/
theorem u64AsI64_emod (v : Int) (h : i64WF v = true) :
    u64AsI64 (v % (2 ^ 64 : Int)).toNat = v := by
  simp only [i64WF, Bool.and_eq_true, decide_eq_true_eq] at h
  unfold u64AsI64
  split <;> omega

/-- Reading back the two's-complement pattern of an `i32` value. -/
theorem u64AsI32_emod (v : Int) (h : i32WF v = true) :
    u64AsI32 (v % (2 ^ 64 : Int)).toNat = v := by
  simp only [i32WF, Bool.and_eq_true, decide_eq_true_eq] at h
  unfold u64AsI32
  split <;> omega

/-! ### Byte-length bounds for the encoders -/

/-- Length bound for a varint-typed field. -/
theorem encodeVarintField_length_le (fn v : Nat) (hfn : fn * 8 + 2 < 2 ^ 64)
    (hv : v < 2 ^ 64) : (encodeVarintField fn v).length ≤ 22 := by
  have h1 := encodeVarint_length_le (fn * 8 + 0) (by omega)
  have h2 := encodeVarint_length_le v hv
  simp only [encodeVarintField, encodeKey, List.length_append]
  omega

/-- Length bound for a length-delimited field. -/
theorem encodeLenField_length_le (fn : Nat) (p : Bytes) (hfn : fn * 8 + 2 < 2 ^ 64)
    (hp : p.length < 2 ^ 64) : (encodeLenField fn p).length ≤ 22 + p.length := by
  have h1 := encodeVarint_length_le (fn * 8 + 2) hfn
  have h2 := encodeVarint_length_le p.length hp
  simp only [encodeLenField, encodeKey, List.length_append]
  omega

/-- Length bound for an optional bytes field. -/
theorem encodeBytesField_length_le (fn : Nat) (bs : Bytes) (hfn : fn * 8 + 2 < 2 ^ 64)
    (hp : bs.length < 2 ^ 64) : (encodeBytesField fn bs).length ≤ 22 + bs.length := by
  unfold encodeBytesField
  split
  · simp
  · exact encodeLenField_length_le fn bs hfn hp

/-- Length bound for an optional `i64`/`i32` field. -/
theorem encodeI64Field_length_le (fn : Nat) (v : Int) (hfn : fn * 8 + 2 < 2 ^ 64) :
    (encodeI64Field fn v).length ≤ 22 := by
  unfold encodeI64Field
  split
  · simp
  · exact encodeVarintField_length_le fn _ hfn (int_emod_toNat_lt v)

/-- Length bound for a target oneof field. -/
theorem encodeTargetField_length_le (fnC fnR fnP : Nat) (t : Option ObjTarget)
    (hC : fnC * 8 + 2 < 2 ^ 64) (hR : fnR * 8 + 2 < 2 ^ 64) (hP : fnP * 8 + 2 < 2 ^ 64)
    (hwf : optWf ObjTarget.wf t = true) :
    (encodeTargetField fnC fnR fnP t).length ≤ 2 ^ 34 := by
  match t with
  | none => simp [encodeTargetField]
  | some .currentPlayer =>
    have hb := encodeLenField_length_le fnC [] hC (by simp)
    simp only [List.length_nil] at hb
    simp only [encodeTargetField]
    omega
  | some (.roomAll roomId) =>
    simp only [optWf, ObjTarget.wf, bytesWF, Bool.and_eq_true, decide_eq_true_eq] at hwf
    obtain ⟨hrid, -⟩ := hwf
    have hra : (encodeRoomAll roomId).length ≤ 22 + roomId.length := by
      unfold encodeRoomAll
      exact encodeBytesField_length_le 1 roomId (by norm_num) (by omega)
    have hb := encodeLenField_length_le fnR (encodeRoomAll roomId) hR (by omega)
    simp only [encodeTargetField]
    omega
  | some (.playerId playerId) =>
    simp only [optWf, ObjTarget.wf, bytesWF, Bool.and_eq_true, decide_eq_true_eq] at hwf
    obtain ⟨hpid, -⟩ := hwf
    have hb := encodeLenField_length_le fnP playerId hP (by omega)
    simp only [encodeTargetField]
    omega

/-! ### Field lists of the canonical encodings -/

/-- Field list of an optional bytes field. -/
def bytesFieldList (fn : Nat) (bs : Bytes) : List (Nat × WireVal) :=
  if bs.isEmpty then [] else [(fn, .lenPayload bs)]

/-- Field list of an optional `i64`/`i32` field. -/
def intFieldList (fn : Nat) (v : Int) : List (Nat × WireVal) :=
  if v = 0 then [] else [(fn, .vint (v % (2 ^ 64 : Int)).toNat)]

/-- Field list of a target oneof. -/
def targetFieldList (fnC fnR fnP : Nat) : Option ObjTarget → List (Nat × WireVal)
  | none => []
  | some .currentPlayer => [(fnC, .lenPayload [])]
  | some (.roomAll roomId) => [(fnR, .lenPayload (encodeRoomAll roomId))]
  | some (.playerId playerId) => [(fnP, .lenPayload playerId)]

/-- Parsing an optional bytes chunk. -/
theorem decodeFields_bytesField (fn : Nat) (bs rest : Bytes)
    (h1 : 1 ≤ fn) (h2 : fn * 8 + 2 < 2 ^ 64) (hlen : bs.length < 2 ^ 64) :
    decodeFields (encodeBytesField fn bs ++ rest) =
      (decodeFields rest).map (fun fs => bytesFieldList fn bs ++ fs) := by
  unfold encodeBytesField bytesFieldList
  split
  · simp only [List.nil_append]
    rcases decodeFields rest with - | fs <;> simp
  · rw [decodeFields_lenChunk fn bs rest h1 h2 hlen]
    rcases decodeFields rest with - | fs <;> simp

/-- Parsing an optional `i64`/`i32` chunk. -/
theorem decodeFields_intField (fn : Nat) (v : Int) (rest : Bytes)
    (h1 : 1 ≤ fn) (h2 : fn * 8 + 2 < 2 ^ 64) :
    decodeFields (encodeI64Field fn v ++ rest) =
      (decodeFields rest).map (fun fs => intFieldList fn v ++ fs) := by
  unfold encodeI64Field intFieldList
  split
  · simp only [List.nil_append]
    rcases decodeFields rest with - | fs <;> simp
  · rw [decodeFields_varintChunk fn _ rest h1 h2 (int_emod_toNat_lt v)]
    rcases decodeFields rest with - | fs <;> simp

/-- Parsing a target oneof chunk. -/
theorem decodeFields_targetField (fnC fnR fnP : Nat) (t : Option ObjTarget) (rest : Bytes)
    (h1C : 1 ≤ fnC) (h2C : fnC * 8 + 2 < 2 ^ 64)
    (h1R : 1 ≤ fnR) (h2R : fnR * 8 + 2 < 2 ^ 64)
    (h1P : 1 ≤ fnP) (h2P : fnP * 8 + 2 < 2 ^ 64)
    (hwf : optWf ObjTarget.wf t = true) :
    decodeFields (encodeTargetField fnC fnR fnP t ++ rest) =
      (decodeFields rest).map (fun fs => targetFieldList fnC fnR fnP t ++ fs) := by
  match t with
  | none =>
    simp only [encodeTargetField, targetFieldList, List.nil_append]
    rcases decodeFields rest with - | fs <;> simp
  | some .currentPlayer =>
    simp only [encodeTargetField, targetFieldList]
    rw [decodeFields_lenChunk fnC [] rest h1C h2C (by simp)]
    rcases decodeFields rest with - | fs <;> simp
  | some (.roomAll roomId) =>
    simp only [optWf, ObjTarget.wf, bytesWF, Bool.and_eq_true, decide_eq_true_eq] at hwf
    obtain ⟨hrid, -⟩ := hwf
    have hra : (encodeRoomAll roomId).length ≤ 22 + roomId.length := by
      unfold encodeRoomAll
      exact encodeBytesField_length_le 1 roomId (by norm_num) (by omega)
    simp only [encodeTargetField, targetFieldList]
    rw [decodeFields_lenChunk fnR _ rest h1R h2R (by omega)]
    rcases decodeFields rest with - | fs <;> simp
  | some (.playerId playerId) =>
    simp only [optWf, ObjTarget.wf, bytesWF, Bool.and_eq_true, decide_eq_true_eq] at hwf
    obtain ⟨hpid, -⟩ := hwf
    simp only [encodeTargetField, targetFieldList]
    rw [decodeFields_lenChunk fnP playerId rest h1P h2P (by omega)]
    rcases decodeFields rest with - | fs <;> simp

/-- Merging a concatenation of field lists is sequential. -/
theorem runMerge_append {α : Type} (merge : α → Nat × WireVal → Option α) (init : α)
    (l1 l2 : List (Nat × WireVal)) :
    runMerge merge init (l1 ++ l2) =
      (runMerge merge init l1).bind (fun a => runMerge merge a l2) := by
  induction l1 generalizing init with
  | nil => simp [runMerge]
  | cons f tl ih =>
    rw [List.cons_append, runMerge, runMerge]
    rcases merge init f with - | a
    · simp
    · simpa using ih a

/-! ### Message roundtrips -/

/-- Decoding the empty `CurrentPlayer` body. -/
theorem decodeCurrentPlayer_nil : decodeCurrentPlayer [] = some () := rfl

/-- Roundtrip for `RoomAll`. -/
theorem decodeRoomAll_encode (rid : Bytes) (h : bytesWF rid = true) :
    decodeRoomAll (encodeRoomAll rid) = some rid := by
  have hlen : rid.length < 2 ^ 32 := by
    simp only [bytesWF, Bool.and_eq_true, decide_eq_true_eq] at h
    exact h.1
  unfold decodeRoomAll decodeMessage encodeRoomAll
  have hfe := decodeFields_bytesField 1 rid [] (by norm_num) (by norm_num) (by omega)
  rw [List.append_nil] at hfe
  rw [hfe, decodeFields_nil]
  simp only [Option.map_some', List.append_nil]
  unfold bytesFieldList
  split
  · next hemp =>
    simp only [List.isEmpty_iff] at hemp
    simp [runMerge, hemp]
  · simp [runMerge, mergeRoomAll]

/-- Roundtrip for `Room`. -/
theorem Room.decode_encode_room (r : Room) (h : r.wf = true) :
    Room.decode r.encode = some r := by
  obtain ⟨id, startedAt, endedAt⟩ := r
  simp only [Room.wf, Bool.and_eq_true] at h
  obtain ⟨⟨hidb, hsa⟩, hea⟩ := h
  have hidlen : id.length < 2 ^ 32 := by
    simp only [bytesWF, Bool.and_eq_true, decide_eq_true_eq] at hidb
    exact hidb.1
  unfold Room.decode decodeMessage Room.encode
  rw [List.append_assoc, ← List.append_nil (encodeI64Field 3 endedAt)]
  rw [decodeFields_bytesField 1 id _ (by norm_num) (by norm_num) (by omega)]
  rw [decodeFields_intField 2 startedAt _ (by norm_num) (by norm_num)]
  rw [decodeFields_intField 3 endedAt [] (by norm_num) (by norm_num)]
  rw [decodeFields_nil]
  simp only [Option.map_some', List.append_nil]
  have e1 : runMerge Room.mergeField ⟨[], 0, 0⟩ (bytesFieldList 1 id) =
      some ⟨id, 0, 0⟩ := by
    unfold bytesFieldList
    split
    · next hemp =>
      simp only [List.isEmpty_iff] at hemp
      simp [runMerge, hemp]
    · simp [runMerge, Room.mergeField]
  have hv2 := u64AsI64_emod startedAt hsa
  have hv3 := u64AsI64_emod endedAt hea
  norm_num at hv2 hv3
  have e2 : runMerge Room.mergeField ⟨id, 0, 0⟩ (intFieldList 2 startedAt) =
      some ⟨id, startedAt, 0⟩ := by
    unfold intFieldList
    split
    · next hz => simp [runMerge, hz]
    · simp [runMerge, Room.mergeField, hv2]
  have e3 : runMerge Room.mergeField ⟨id, startedAt, 0⟩ (intFieldList 3 endedAt) =
      some ⟨id, startedAt, endedAt⟩ := by
    unfold intFieldList
    split
    · next hz => simp [runMerge, hz]
    · simp [runMerge, Room.mergeField, hv3]
  rw [runMerge_append, e1]
  simp only [Option.some_bind]
  rw [runMerge_append, e2]
  simp only [Option.some_bind]
  rw [e3]

/-- Length bound for a `Room` encoding. -/
theorem Room.encode_length_le_room (r : Room) (h : r.wf = true) :
    (Room.encode r).length ≤ 2 ^ 40 := by
  simp only [Room.wf, Bool.and_eq_true] at h
  obtain ⟨⟨hidb, -⟩, -⟩ := h
  have hidlen : r.id.length < 2 ^ 32 := by
    simp only [bytesWF, Bool.and_eq_true, decide_eq_true_eq] at hidb
    exact hidb.1
  have h1 : (encodeBytesField 1 r.id).length ≤ 22 + r.id.length :=
    encodeBytesField_length_le 1 r.id (by norm_num) (by omega)
  have h2 := encodeI64Field_length_le 2 r.startedAt (by norm_num)
  have h3 := encodeI64Field_length_le 3 r.endedAt (by norm_num)
  simp only [Room.encode, List.length_append]
  omega

/-- Length bound for an `AuthorizeResponse` encoding. -/
theorem AuthorizeResponse.encode_length_le_authorizeResponse (a : AuthorizeResponse) (h : a.wf = true) :
    (AuthorizeResponse.encode a).length ≤ 2 ^ 40 := by
  simp only [AuthorizeResponse.wf, Bool.and_eq_true] at h
  obtain ⟨hpb, -⟩ := h
  have hplen : a.playerId.length < 2 ^ 32 := by
    simp only [bytesWF, Bool.and_eq_true, decide_eq_true_eq] at hpb
    exact hpb.1
  have h1 : (encodeBytesField 1 a.playerId).length ≤ 22 + a.playerId.length :=
    encodeBytesField_length_le 1 a.playerId (by norm_num) (by omega)
  have h2 := encodeI64Field_length_le 2 a.role (by norm_num)
  simp only [AuthorizeResponse.encode, encodeI32Field, List.length_append]
  omega

/-- Length bound for a `JoinRoomResponse` encoding. -/
theorem JoinRoomResponse.encode_length_le_joinRoomResponse (j : JoinRoomResponse) (h : j.wf = true) :
    (JoinRoomResponse.encode j).length ≤ 2 ^ 41 := by
  simp only [JoinRoomResponse.wf, Bool.and_eq_true] at h
  obtain ⟨hrb, -⟩ := h
  have h2 := encodeI64Field_length_le 2 j.joinedAt (by norm_num)
  rcases hr : j.room with - | r
  · simp only [JoinRoomResponse.encode, hr, List.nil_append]
    omega
  · have hrwf : r.wf = true := by rw [hr] at hrb; exact hrb
    have hb := Room.encode_length_le_room r hrwf
    have h1 : (encodeLenField 1 r.encode).length ≤ 22 + (Room.encode r).length :=
      encodeLenField_length_le 1 _ (by norm_num) (by omega)
    simp only [JoinRoomResponse.encode, hr, List.length_append]
    omega

/-- Length bound for an `InstantiateObject` encoding. -/
theorem InstantiateObject.encode_length_le_instantiateObject (o : InstantiateObject) (h : o.wf = true) :
    (InstantiateObject.encode o).length ≤ 2 ^ 40 := by
  simp only [InstantiateObject.wf, Bool.and_eq_true] at h
  obtain ⟨⟨⟨⟨htw, -⟩, hob⟩, hpb⟩, hib⟩ := h
  have hoblen : o.ownerId.length < 2 ^ 32 := by
    simp only [bytesWF, Bool.and_eq_true, decide_eq_true_eq] at hob
    exact hob.1
  have hpblen : o.prefabName.length < 2 ^ 32 := by
    simp only [bytesWF, Bool.and_eq_true, decide_eq_true_eq] at hpb
    exact hpb.1
  have hiblen : o.initData.length < 2 ^ 32 := by
    simp only [bytesWF, Bool.and_eq_true, decide_eq_true_eq] at hib
    exact hib.1
  have h1 := encodeTargetField_length_le 3 4 7 o.target (by norm_num) (by norm_num)
    (by norm_num) htw
  have h2 := encodeI64Field_length_le 8 o.objectId (by norm_num)
  have h3 : (encodeBytesField 9 o.ownerId).length ≤ 22 + o.ownerId.length :=
    encodeBytesField_length_le 9 o.ownerId (by norm_num) (by omega)
  have h4 : (encodeBytesField 10 o.prefabName).length ≤ 22 + o.prefabName.length :=
    encodeBytesField_length_le 10 o.prefabName (by norm_num) (by omega)
  have h5 : (encodeBytesField 11 o.initData).length ≤ 22 + o.initData.length :=
    encodeBytesField_length_le 11 o.initData (by norm_num) (by omega)
  simp only [InstantiateObject.encode, encodeI32Field, List.length_append]
  omega

/-- Length bound for an `UpdateObject` encoding. -/
theorem UpdateObject.encode_length_le_updateObject (o : UpdateObject) (h : o.wf = true) :
    (UpdateObject.encode o).length ≤ 2 ^ 40 := by
  simp only [UpdateObject.wf, Bool.and_eq_true] at h
  obtain ⟨⟨⟨htw, -⟩, -⟩, hpb⟩ := h
  have hplen : o.payload.length < 2 ^ 32 := by
    simp only [bytesWF, Bool.and_eq_true, decide_eq_true_eq] at hpb
    exact hpb.1
  have h1 := encodeI64Field_length_le 1 o.objectId (by norm_num)
  have h2 := encodeI64Field_length_le 2 o.method (by norm_num)
  have h3 := encodeTargetField_length_le 3 4 6 o.target (by norm_num) (by norm_num)
    (by norm_num) htw
  have h4 : (encodeBytesField 5 o.payload).length ≤ 22 + o.payload.length :=
    encodeBytesField_length_le 5 o.payload (by norm_num) (by omega)
  simp only [UpdateObject.encode, encodeI32Field, List.length_append]
  omega

/-- Length bound for a `DestroyObject` encoding. -/
theorem DestroyObject.encode_length_le_destroyObject (o : DestroyObject) (h : o.wf = true) :
    (DestroyObject.encode o).length ≤ 2 ^ 40 := by
  simp only [DestroyObject.wf, Bool.and_eq_true] at h
  obtain ⟨htw, -⟩ := h
  have h1 := encodeI64Field_length_le 1 o.objectId (by norm_num)
  have h2 := encodeTargetField_length_le 3 4 6 o.target (by norm_num) (by norm_num)
    (by norm_num) htw
  simp only [DestroyObject.encode, encodeI32Field, List.length_append]
  omega

/-- Length bound for a `DataFrame` encoding. -/
theorem DataFrame.encode_length_le_dataFrame (f : DataFrame) (h : f.wf = true) :
    (DataFrame.encode f).length ≤ 2 ^ 42 := by
  rcases hm : f.message with - | m
  · simp [DataFrame.encode, hm]
  · have hmw : m.wf = true := by
      simp only [DataFrame.wf, hm, optWf] at h
      exact h
    rcases m with o | o | o | r | a | j
    · have hb := InstantiateObject.encode_length_le_instantiateObject o hmw
      have h1 : (encodeLenField 128 o.encode).length ≤ 22 + o.encode.length :=
        encodeLenField_length_le 128 _ (by norm_num) (by omega)
      simp only [DataFrame.encode, hm]
      omega
    · have hb := UpdateObject.encode_length_le_updateObject o hmw
      have h1 : (encodeLenField 129 o.encode).length ≤ 22 + o.encode.length :=
        encodeLenField_length_le 129 _ (by norm_num) (by omega)
      simp only [DataFrame.encode, hm]
      omega
    · have hb := DestroyObject.encode_length_le_destroyObject o hmw
      have h1 : (encodeLenField 130 o.encode).length ≤ 22 + o.encode.length :=
        encodeLenField_length_le 130 _ (by norm_num) (by omega)
      simp only [DataFrame.encode, hm]
      omega
    · have hb := Room.encode_length_le_room r hmw
      have h1 : (encodeLenField 143 r.encode).length ≤ 22 + r.encode.length :=
        encodeLenField_length_le 143 _ (by norm_num) (by omega)
      simp only [DataFrame.encode, hm]
      omega
    · have hb := AuthorizeResponse.encode_length_le_authorizeResponse a hmw
      have h1 : (encodeLenField 144 a.encode).length ≤ 22 + a.encode.length :=
        encodeLenField_length_le 144 _ (by norm_num) (by omega)
      simp only [DataFrame.encode, hm]
      omega
    · have hb := JoinRoomResponse.encode_length_le_joinRoomResponse j hmw
      have h1 : (encodeLenField 147 j.encode).length ≤ 22 + j.encode.length :=
        encodeLenField_length_le 147 _ (by norm_num) (by omega)
      simp only [DataFrame.encode, hm]
      omega

/-- Roundtrip for `AuthorizeResponse`. -/
theorem AuthorizeResponse.decode_encode_authorizeResponse (a : AuthorizeResponse) (h : a.wf = true) :
    AuthorizeResponse.decode a.encode = some a := by
  obtain ⟨playerId, role⟩ := a
  simp only [AuthorizeResponse.wf, Bool.and_eq_true] at h
  obtain ⟨hpb, hrw⟩ := h
  have hplen : playerId.length < 2 ^ 32 := by
    simp only [bytesWF, Bool.and_eq_true, decide_eq_true_eq] at hpb
    exact hpb.1
  have hv := u64AsI32_emod role hrw
  norm_num at hv
  unfold AuthorizeResponse.decode decodeMessage AuthorizeResponse.encode encodeI32Field
  rw [← List.append_nil (encodeI64Field 2 role)]
  rw [decodeFields_bytesField 1 playerId _ (by norm_num) (by norm_num) (by omega)]
  rw [decodeFields_intField 2 role [] (by norm_num) (by norm_num)]
  rw [decodeFields_nil]
  simp only [Option.map_some', List.append_nil]
  have e1 : runMerge AuthorizeResponse.mergeField ⟨[], 0⟩ (bytesFieldList 1 playerId) =
      some ⟨playerId, 0⟩ := by
    unfold bytesFieldList
    split
    · next hemp =>
      simp only [List.isEmpty_iff] at hemp
      simp [runMerge, hemp]
    · simp [runMerge, AuthorizeResponse.mergeField]
  have e2 : runMerge AuthorizeResponse.mergeField ⟨playerId, 0⟩ (intFieldList 2 role) =
      some ⟨playerId, role⟩ := by
    unfold intFieldList
    split
    · next hz => simp [runMerge, hz]
    · simp [runMerge, AuthorizeResponse.mergeField, hv]
  rw [runMerge_append, e1]
  simp only [Option.some_bind]
  rw [e2]

/-- Roundtrip for `JoinRoomResponse`. -/
theorem JoinRoomResponse.decode_encode_joinRoomResponse (j : JoinRoomResponse) (h : j.wf = true) :
    JoinRoomResponse.decode j.encode = some j := by
  obtain ⟨room, joinedAt⟩ := j
  simp only [JoinRoomResponse.wf, Bool.and_eq_true] at h
  obtain ⟨hrw, hjw⟩ := h
  have hv := u64AsI64_emod joinedAt hjw
  norm_num at hv
  rcases room with - | r
  · unfold JoinRoomResponse.decode decodeMessage JoinRoomResponse.encode
    simp only [List.nil_append]
    rw [← List.append_nil (encodeI64Field 2 joinedAt)]
    rw [decodeFields_intField 2 joinedAt [] (by norm_num) (by norm_num)]
    rw [decodeFields_nil]
    simp only [Option.map_some', List.append_nil]
    unfold intFieldList
    split
    · next hz => simp [runMerge, hz]
    · simp [runMerge, JoinRoomResponse.mergeField, hv]
  · have hrwf : r.wf = true := hrw
    have hrlen := Room.encode_length_le_room r hrwf
    unfold JoinRoomResponse.decode decodeMessage JoinRoomResponse.encode
    simp only
    rw [← List.append_nil (encodeI64Field 2 joinedAt)]
    rw [decodeFields_lenChunk 1 r.encode _ (by norm_num) (by norm_num) (by omega)]
    rw [decodeFields_intField 2 joinedAt [] (by norm_num) (by norm_num)]
    rw [decodeFields_nil]
    simp only [Option.map_some', List.append_nil]
    have e2 : runMerge JoinRoomResponse.mergeField ⟨some r, 0⟩ (intFieldList 2 joinedAt) =
        some ⟨some r, joinedAt⟩ := by
      unfold intFieldList
      split
      · next hz => simp [runMerge, hz]
      · simp [runMerge, JoinRoomResponse.mergeField, hv]
    rw [runMerge, JoinRoomResponse.mergeField]
    simp only [Room.decode_encode_room r hrwf, Option.map_some']
    exact e2

/-- Roundtrip for `InstantiateObject`. -/
theorem InstantiateObject.decode_encode_instantiateObject (o : InstantiateObject) (h : o.wf = true) :
    InstantiateObject.decode o.encode = some o := by
  obtain ⟨target, objectId, ownerId, prefabName, initData⟩ := o
  simp only [InstantiateObject.wf, Bool.and_eq_true] at h
  obtain ⟨⟨⟨⟨htw, hoi⟩, hob⟩, hpb⟩, hib⟩ := h
  have hoblen : ownerId.length < 2 ^ 32 := by
    simp only [bytesWF, Bool.and_eq_true, decide_eq_true_eq] at hob
    exact hob.1
  have hpblen : prefabName.length < 2 ^ 32 := by
    simp only [bytesWF, Bool.and_eq_true, decide_eq_true_eq] at hpb
    exact hpb.1
  have hiblen : initData.length < 2 ^ 32 := by
    simp only [bytesWF, Bool.and_eq_true, decide_eq_true_eq] at hib
    exact hib.1
  have hv := u64AsI32_emod objectId hoi
  norm_num at hv
  unfold InstantiateObject.decode decodeMessage InstantiateObject.encode encodeI32Field
  simp only [List.append_assoc]
  rw [← List.append_nil (encodeBytesField 11 initData)]
  rw [decodeFields_targetField 3 4 7 target _ (by norm_num) (by norm_num) (by norm_num)
    (by norm_num) (by norm_num) (by norm_num) htw]
  rw [decodeFields_intField 8 objectId _ (by norm_num) (by norm_num)]
  rw [decodeFields_bytesField 9 ownerId _ (by norm_num) (by norm_num) (by omega)]
  rw [decodeFields_bytesField 10 prefabName _ (by norm_num) (by norm_num) (by omega)]
  rw [decodeFields_bytesField 11 initData [] (by norm_num) (by norm_num) (by omega)]
  rw [decodeFields_nil]
  simp only [Option.map_some', List.append_nil]
  have et : runMerge InstantiateObject.mergeField ⟨none, 0, [], [], []⟩
      (targetFieldList 3 4 7 target) = some ⟨target, 0, [], [], []⟩ := by
    rcases target with - | t
    · simp [targetFieldList, runMerge]
    · rcases t with - | rid | pid
      · simp [targetFieldList, runMerge, InstantiateObject.mergeField,
          decodeCurrentPlayer_nil]
      · have hridw : bytesWF rid = true := htw
        simp [targetFieldList, runMerge, InstantiateObject.mergeField,
          decodeRoomAll_encode rid hridw]
      · simp [targetFieldList, runMerge, InstantiateObject.mergeField]
  have e2 : runMerge InstantiateObject.mergeField ⟨target, 0, [], [], []⟩
      (intFieldList 8 objectId) = some ⟨target, objectId, [], [], []⟩ := by
    unfold intFieldList
    split
    · next hz => simp [runMerge, hz]
    · simp [runMerge, InstantiateObject.mergeField, hv]
  have e3 : runMerge InstantiateObject.mergeField ⟨target, objectId, [], [], []⟩
      (bytesFieldList 9 ownerId) = some ⟨target, objectId, ownerId, [], []⟩ := by
    unfold bytesFieldList
    split
    · next hemp =>
      simp only [List.isEmpty_iff] at hemp
      simp [runMerge, hemp]
    · simp [runMerge, InstantiateObject.mergeField]
  have e4 : runMerge InstantiateObject.mergeField ⟨target, objectId, ownerId, [], []⟩
      (bytesFieldList 10 prefabName) = some ⟨target, objectId, ownerId, prefabName, []⟩ := by
    unfold bytesFieldList
    split
    · next hemp =>
      simp only [List.isEmpty_iff] at hemp
      simp [runMerge, hemp]
    · simp [runMerge, InstantiateObject.mergeField]
  have e5 : runMerge InstantiateObject.mergeField
      ⟨target, objectId, ownerId, prefabName, []⟩ (bytesFieldList 11 initData) =
      some ⟨target, objectId, ownerId, prefabName, initData⟩ := by
    unfold bytesFieldList
    split
    · next hemp =>
      simp only [List.isEmpty_iff] at hemp
      simp [runMerge, hemp]
    · simp [runMerge, InstantiateObject.mergeField]
  rw [runMerge_append, et]
  simp only [Option.some_bind]
  rw [runMerge_append, e2]
  simp only [Option.some_bind]
  rw [runMerge_append, e3]
  simp only [Option.some_bind]
  rw [runMerge_append, e4]
  simp only [Option.some_bind]
  rw [e5]

/-- Roundtrip for `UpdateObject`. -/
theorem UpdateObject.decode_encode_updateObject (o : UpdateObject) (h : o.wf = true) :
    UpdateObject.decode o.encode = some o := by
  obtain ⟨target, objectId, method, payload⟩ := o
  simp only [UpdateObject.wf, Bool.and_eq_true] at h
  obtain ⟨⟨⟨htw, hoi⟩, hmw⟩, hpb⟩ := h
  have hplen : payload.length < 2 ^ 32 := by
    simp only [bytesWF, Bool.and_eq_true, decide_eq_true_eq] at hpb
    exact hpb.1
  have hv1 := u64AsI32_emod objectId hoi
  have hv2 := u64AsI32_emod method hmw
  norm_num at hv1 hv2
  unfold UpdateObject.decode decodeMessage UpdateObject.encode encodeI32Field
  simp only [List.append_assoc]
  rw [← List.append_nil (encodeBytesField 5 payload)]
  rw [decodeFields_intField 1 objectId _ (by norm_num) (by norm_num)]
  rw [decodeFields_intField 2 method _ (by norm_num) (by norm_num)]
  rw [decodeFields_targetField 3 4 6 target _ (by norm_num) (by norm_num) (by norm_num)
    (by norm_num) (by norm_num) (by norm_num) htw]
  rw [decodeFields_bytesField 5 payload [] (by norm_num) (by norm_num) (by omega)]
  rw [decodeFields_nil]
  simp only [Option.map_some', List.append_nil]
  have e1 : runMerge UpdateObject.mergeField ⟨none, 0, 0, []⟩ (intFieldList 1 objectId) =
      some ⟨none, objectId, 0, []⟩ := by
    unfold intFieldList
    split
    · next hz => simp [runMerge, hz]
    · simp [runMerge, UpdateObject.mergeField, hv1]
  have e2 : runMerge UpdateObject.mergeField ⟨none, objectId, 0, []⟩
      (intFieldList 2 method) = some ⟨none, objectId, method, []⟩ := by
    unfold intFieldList
    split
    · next hz => simp [runMerge, hz]
    · simp [runMerge, UpdateObject.mergeField, hv2]
  have et : runMerge UpdateObject.mergeField ⟨none, objectId, method, []⟩
      (targetFieldList 3 4 6 target) = some ⟨target, objectId, method, []⟩ := by
    rcases target with - | t
    · simp [targetFieldList, runMerge]
    · rcases t with - | rid | pid
      · simp [targetFieldList, runMerge, UpdateObject.mergeField, decodeCurrentPlayer_nil]
      · have hridw : bytesWF rid = true := htw
        simp [targetFieldList, runMerge, UpdateObject.mergeField,
          decodeRoomAll_encode rid hridw]
      · simp [targetFieldList, runMerge, UpdateObject.mergeField]
  have e4 : runMerge UpdateObject.mergeField ⟨target, objectId, method, []⟩
      (bytesFieldList 5 payload) = some ⟨target, objectId, method, payload⟩ := by
    unfold bytesFieldList
    split
    · next hemp =>
      simp only [List.isEmpty_iff] at hemp
      simp [runMerge, hemp]
    · simp [runMerge, UpdateObject.mergeField]
  rw [runMerge_append, e1]
  simp only [Option.some_bind]
  rw [runMerge_append, e2]
  simp only [Option.some_bind]
  rw [runMerge_append, et]
  simp only [Option.some_bind]
  rw [e4]

/-- Roundtrip for `DestroyObject`. -/
theorem DestroyObject.decode_encode_destroyObject (o : DestroyObject) (h : o.wf = true) :
    DestroyObject.decode o.encode = some o := by
  obtain ⟨target, objectId⟩ := o
  simp only [DestroyObject.wf, Bool.and_eq_true] at h
  obtain ⟨htw, hoi⟩ := h
  have hv := u64AsI32_emod objectId hoi
  norm_num at hv
  unfold DestroyObject.decode decodeMessage DestroyObject.encode encodeI32Field
  rw [← List.append_nil (encodeTargetField 3 4 6 target)]
  rw [decodeFields_intField 1 objectId _ (by norm_num) (by norm_num)]
  rw [decodeFields_targetField 3 4 6 target [] (by norm_num) (by norm_num) (by norm_num)
    (by norm_num) (by norm_num) (by norm_num) htw]
  rw [decodeFields_nil]
  simp only [Option.map_some', List.append_nil]
  have e1 : runMerge DestroyObject.mergeField ⟨none, 0⟩ (intFieldList 1 objectId) =
      some ⟨none, objectId⟩ := by
    unfold intFieldList
    split
    · next hz => simp [runMerge, hz]
    · simp [runMerge, DestroyObject.mergeField, hv]
  have et : runMerge DestroyObject.mergeField ⟨none, objectId⟩
      (targetFieldList 3 4 6 target) = some ⟨target, objectId⟩ := by
    rcases target with - | t
    · simp [targetFieldList, runMerge]
    · rcases t with - | rid | pid
      · simp [targetFieldList, runMerge, DestroyObject.mergeField, decodeCurrentPlayer_nil]
      · have hridw : bytesWF rid = true := htw
        simp [targetFieldList, runMerge, DestroyObject.mergeField,
          decodeRoomAll_encode rid hridw]
      · simp [targetFieldList, runMerge, DestroyObject.mergeField]
  rw [runMerge_append, e1]
  simp only [Option.some_bind]
  rw [et]

/-- Roundtrip for `DataFrame`. -/
theorem DataFrame.decode_encode_dataFrame (f : DataFrame) (h : f.wf = true) :
    DataFrame.decode f.encode = some f := by
  obtain ⟨msg⟩ := f
  rcases msg with - | m
  · rfl
  · have hmw : m.wf = true := by
      simpa only [DataFrame.wf, optWf] using h
    rcases m with o | o | o | r | a | j
    · have hb := InstantiateObject.encode_length_le_instantiateObject o hmw
      unfold DataFrame.decode decodeMessage DataFrame.encode
      dsimp only
      rw [← List.append_nil (encodeLenField 128 o.encode)]
      rw [decodeFields_lenChunk 128 o.encode [] (by norm_num) (by norm_num) (by omega)]
      rw [decodeFields_nil]
      simp [runMerge, DataFrame.mergeField, InstantiateObject.decode_encode_instantiateObject o hmw]
    · have hb := UpdateObject.encode_length_le_updateObject o hmw
      unfold DataFrame.decode decodeMessage DataFrame.encode
      dsimp only
      rw [← List.append_nil (encodeLenField 129 o.encode)]
      rw [decodeFields_lenChunk 129 o.encode [] (by norm_num) (by norm_num) (by omega)]
      rw [decodeFields_nil]
      simp [runMerge, DataFrame.mergeField, UpdateObject.decode_encode_updateObject o hmw]
    · have hb := DestroyObject.encode_length_le_destroyObject o hmw
      unfold DataFrame.decode decodeMessage DataFrame.encode
      dsimp only
      rw [← List.append_nil (encodeLenField 130 o.encode)]
      rw [decodeFields_lenChunk 130 o.encode [] (by norm_num) (by norm_num) (by omega)]
      rw [decodeFields_nil]
      simp [runMerge, DataFrame.mergeField, DestroyObject.decode_encode_destroyObject o hmw]
    · have hb := Room.encode_length_le_room r hmw
      unfold DataFrame.decode decodeMessage DataFrame.encode
      dsimp only
      rw [← List.append_nil (encodeLenField 143 r.encode)]
      rw [decodeFields_lenChunk 143 r.encode [] (by norm_num) (by norm_num) (by omega)]
      rw [decodeFields_nil]
      simp [runMerge, DataFrame.mergeField, Room.decode_encode_room r hmw]
    · have hb := AuthorizeResponse.encode_length_le_authorizeResponse a hmw
      unfold DataFrame.decode decodeMessage DataFrame.encode
      dsimp only
      rw [← List.append_nil (encodeLenField 144 a.encode)]
      rw [decodeFields_lenChunk 144 a.encode [] (by norm_num) (by norm_num) (by omega)]
      rw [decodeFields_nil]
      simp [runMerge, DataFrame.mergeField, AuthorizeResponse.decode_encode_authorizeResponse a hmw]
    · have hb := JoinRoomResponse.encode_length_le_joinRoomResponse j hmw
      unfold DataFrame.decode decodeMessage DataFrame.encode
      dsimp only
      rw [← List.append_nil (encodeLenField 147 j.encode)]
      rw [decodeFields_lenChunk 147 j.encode [] (by norm_num) (by norm_num) (by omega)]
      rw [decodeFields_nil]
      simp [runMerge, DataFrame.mergeField, JoinRoomResponse.decode_encode_joinRoomResponse j hmw]

/-- Field list of the control chunk of a custom-order DataPack encoding. -/
def controlFieldList : Option DataPackControl → List (Nat × WireVal)
  | none => []
  | some (.data b) => [(2, .vint (if b then 1 else 0))]
  | some (.pong b) => [(10, .vint (if b then 1 else 0))]
  | some (.segmentStartedAt v) => [(14, .vint (v % (2 ^ 64 : Int)).toNat)]
  | some (.cacheEnded b) => [(15, .vint (if b then 1 else 0))]

/-- Field list of the frames chunks of a custom-order DataPack encoding. -/
def framesFieldList (frames : List DataFrame) : List (Nat × WireVal) :=
  frames.map (fun f => (16, WireVal.lenPayload f.encode))

/-- Control fields never use the frames field number. -/
theorem controlFieldList_ne_sixteen (c : Option DataPackControl) :
    ∀ x ∈ controlFieldList c, x.1 ≠ 16 := by
  rcases c with - | c
  · simp [controlFieldList]
  · rcases c with b | b | v | b <;> simp [controlFieldList]

/-- Parsing the frames chunks of a custom-order DataPack encoding. -/
theorem decodeFields_framesChunks (frames : List DataFrame) (rest : Bytes)
    (h : frames.all DataFrame.wf = true) :
    decodeFields ((frames.map encodeFrame).flatten ++ rest) =
      (decodeFields rest).map (fun fs => framesFieldList frames ++ fs) := by
  induction frames with
  | nil =>
    simp only [List.map_nil, List.flatten_nil, List.nil_append, framesFieldList]
    rcases decodeFields rest with - | fs <;> simp
  | cons f tl ih =>
    simp only [List.all_cons, Bool.and_eq_true] at h
    obtain ⟨hf, htl⟩ := h
    have hb := DataFrame.encode_length_le_dataFrame f hf
    simp only [List.map_cons, List.flatten_cons, List.append_assoc]
    rw [show encodeFrame f = encodeLenField 16 f.encode from rfl]
    rw [decodeFields_lenChunk 16 f.encode _ (by norm_num) (by norm_num) (by omega)]
    rw [ih htl]
    rcases decodeFields rest with - | fs <;> simp [framesFieldList]

/-- Parsing the control chunk of a custom-order DataPack encoding. -/
theorem decodeFields_controlChunk (c : Option DataPackControl) (rest : Bytes) :
    decodeFields (encodeControl c ++ rest) =
      (decodeFields rest).map (fun fs => controlFieldList c ++ fs) := by
  rcases c with - | c
  · simp only [encodeControl, controlFieldList, List.nil_append]
    rcases decodeFields rest with - | fs <;> simp
  · rcases c with b | b | v | b
    · simp only [encodeControl, controlFieldList]
      rw [decodeFields_varintChunk 2 _ rest (by norm_num) (by norm_num)
        (by split <;> norm_num)]
      rcases decodeFields rest with - | fs <;> simp
    · simp only [encodeControl, controlFieldList]
      rw [decodeFields_varintChunk 10 _ rest (by norm_num) (by norm_num)
        (by split <;> norm_num)]
      rcases decodeFields rest with - | fs <;> simp
    · simp only [encodeControl, controlFieldList]
      rw [decodeFields_varintChunk 14 _ rest (by norm_num) (by norm_num)
        (int_emod_toNat_lt v)]
      rcases decodeFields rest with - | fs <;> simp
    · simp only [encodeControl, controlFieldList]
      rw [decodeFields_varintChunk 15 _ rest (by norm_num) (by norm_num)
        (by split <;> norm_num)]
      rcases decodeFields rest with - | fs <;> simp

/-- Merging the frames fields appends the decoded frames in order. -/
theorem runMerge_framesFieldList (frames : List DataFrame) (c : Option DataPackControl)
    (acc : List DataFrame) (h : frames.all DataFrame.wf = true) :
    runMerge DataPack.mergeField ⟨c, acc⟩ (framesFieldList frames) =
      some ⟨c, acc ++ frames⟩ := by
  induction frames generalizing acc with
  | nil => simp [framesFieldList, runMerge]
  | cons f tl ih =>
    simp only [List.all_cons, Bool.and_eq_true] at h
    obtain ⟨hf, htl⟩ := h
    simp only [framesFieldList, List.map_cons]
    rw [runMerge, DataPack.mergeField]
    simp only [DataFrame.decode_encode_dataFrame f hf, Option.map_some']
    have ih2 := ih (acc ++ [f]) htl
    simp only [framesFieldList] at ih2
    rw [ih2]
    simp

/-- Merging the control fields sets the control. -/
theorem runMerge_controlFieldList (c : Option DataPackControl) (frames : List DataFrame)
    (h : optWf DataPackControl.wf c = true) :
    runMerge DataPack.mergeField ⟨none, frames⟩ (controlFieldList c) =
      some ⟨c, frames⟩ := by
  rcases c with - | c
  · simp [controlFieldList, runMerge]
  · rcases c with b | b | v | b
    · rcases b <;> simp [controlFieldList, runMerge, DataPack.mergeField]
    · rcases b <;> simp [controlFieldList, runMerge, DataPack.mergeField]
    · have hv := u64AsI64_emod v (by simpa [optWf, DataPackControl.wf] using h)
      norm_num at hv
      simp [controlFieldList, runMerge, DataPack.mergeField, hv]
    · rcases b <;> simp [controlFieldList, runMerge, DataPack.mergeField]

/-- Roundtrip for a `DataPack` through the source's custom frames-first
encoder and the prost decoder. -/
theorem DataPack.decode_encodeCustomOrder (dp : DataPack) (h : dp.wf = true) :
    DataPack.decode (encodeDataPackCustomOrder dp) = some dp := by
  obtain ⟨control, frames⟩ := dp
  simp only [DataPack.wf, Bool.and_eq_true] at h
  obtain ⟨hcw, hfw⟩ := h
  unfold DataPack.decode decodeMessage encodeDataPackCustomOrder
  rw [← List.append_nil (encodeControl control)]
  rw [decodeFields_framesChunks frames _ hfw]
  rw [decodeFields_controlChunk control []]
  rw [decodeFields_nil]
  simp only [Option.map_some', List.append_nil]
  rw [runMerge_append, runMerge_framesFieldList frames none [] hfw]
  simp only [Option.some_bind, List.nil_append]
  exact runMerge_controlFieldList control frames hcw

/-- The parsed field stream of a custom-order DataPack encoding: all
frame entries (field 16) first, then the control fields (never 16). -/
theorem decodeFields_encodeDataPackCustomOrder (dp : DataPack) (h : dp.wf = true) :
    decodeFields (encodeDataPackCustomOrder dp) =
      some (framesFieldList dp.frames ++ controlFieldList dp.control) := by
  obtain ⟨control, frames⟩ := dp
  simp only [DataPack.wf, Bool.and_eq_true] at h
  obtain ⟨hcw, hfw⟩ := h
  unfold encodeDataPackCustomOrder
  rw [← List.append_nil (encodeControl control)]
  rw [decodeFields_framesChunks frames _ hfw]
  rw [decodeFields_controlChunk control []]
  rw [decodeFields_nil]
  simp

/-! ## Packet framing (`PacketInfo`, `src/crates/packet/src/als/proto/mod.rs`)
and the pure readers (`src/crates/packet/src/als/proto/reader.rs`) -/

/-- Embedding of `PacketInfo`: the `DateTime<Utc>` timestamp is modelled
by its total nanosecond offset from the Unix epoch (chrono's internal
precision). -/
structure PacketInfo where
  timestampNs : Int
  dataPack : DataPack
  rawData : Bytes
deriving DecidableEq

/-- Microsecond timestamp of a packet (`timestamp.timestamp_micros()`,
floor division of the nanosecond offset). -/
def PacketInfo.timestampMicros (p : PacketInfo) : Int := p.timestampNs.fdiv 1000

/-- Embedding of `PacketInfo::protobuf_to_vec`. -/
def PacketInfo.protobufToVec (p : PacketInfo) : Bytes :=
  encodeDataPackCustomOrder p.dataPack

/-- Embedding of `PacketInfo::frame_to_vec`. -/
def PacketInfo.frameToVec (f : DataFrame) : Bytes := encodeFrame f

/-- Embedding of `PacketInfo::to_vec` (mod.rs lines 149-159): 2-byte
big-endian total length (computed in `u16`, hence both the cast of the
protobuf length and the addition wrap modulo 65536), the live marker
`0x01`, the microsecond timestamp as a big-endian `i64`, then the
custom-order DataPack bytes. -/
def PacketInfo.toVec (p : PacketInfo) : Bytes :=
  let dataPackBytes := p.protobufToVec
  let len := (9 + dataPackBytes.length % 65536) % 65536
  u16BeBytes len ++ [0x01] ++ i64BeBytes p.timestampMicros ++ dataPackBytes

/-- Smallest microsecond timestamp accepted by
`chrono::DateTime::from_timestamp_micros` (year -262143). -/
def chronoTsMicrosMin : Int := -8334601228800000000

/-- Largest microsecond timestamp accepted by
`chrono::DateTime::from_timestamp_micros` (year 262142). -/
def chronoTsMicrosMax : Int := 8210266876799999999

/-- Model of `DateTime::from_timestamp_micros`: `some` of the nanosecond
offset when the value is inside chrono's representable range. -/
def fromTimestampMicros (micros : Int) : Option Int :=
  if chronoTsMicrosMin ≤ micros ∧ micros ≤ chronoTsMicrosMax then some (micros * 1000)
  else none

/-- Errors of the pure readers.  Each constructor stands for one
`anyhow!`/io error site in reader.rs; `eofFill` is the io error
`failed to fill whole buffer` raised by a short `read_exact`. -/
inductive ReadErr
  | eofFill
  | invalidLength
  | invalidMarker
  | invalidTimestamp
  | decodeFail
  | invalidProtoLength
  | invalidTsLength
  | missingProtobuf
deriving DecidableEq

/-- Embedding of `is_eof_error` (reader.rs lines 353-358): the string
match hits exactly the `failed to fill whole buffer` io errors among the
errors that reach it. -/
def isEofErr : ReadErr → Bool
  | .eofFill => true
  | _ => false

/-- Reading a big-endian `u16` (`read_u16_be`): fails with the
`read_exact` EOF error when fewer than two bytes remain. -/
def readU16Be : Bytes → Except ReadErr (Nat × Bytes)
  | b0 :: b1 :: rest => .ok (b0 * 256 + b1, rest)
  | _ => .error .eofFill

/-- Reading one byte (`read_u8`). -/
def readU8 : Bytes → Except ReadErr (Nat × Bytes)
  | b :: rest => .ok (b, rest)
  | _ => .error .eofFill

/-- Reading a big-endian `u64` (`read_u64_be`). -/
def readU64Be : Bytes → Except ReadErr (Nat × Bytes)
  | b0 :: b1 :: b2 :: b3 :: b4 :: b5 :: b6 :: b7 :: rest =>
    .ok (((((((b0 * 256 + b1) * 256 + b2) * 256 + b3) * 256 + b4) * 256 + b5) * 256
      + b6) * 256 + b7, rest)
  | _ => .error .eofFill

/-- Embedding of `StandardPacketReader::read_packet` (reader.rs lines
91-147); the reader state is the remaining input, returned alongside the
packet.  `ok none` is the end-of-stream sentinel. -/
def readPacketStandard (input : Bytes) : Except ReadErr (Option (PacketInfo × Bytes)) :=
  match readU16Be input with
  | .error e => if isEofErr e then .ok none else .error e
  | .ok (length, rest) =>
    if length < 9 then .error .invalidLength
    else
      match readU8 rest with
      | .error e => .error e
      | .ok (marker, rest) =>
        if marker ≠ 0x01 then .error .invalidMarker
        else
          match readU64Be rest with
          | .error e => .error e
          | .ok (timestampMicros, rest) =>
            match fromTimestampMicros (u64AsI64 timestampMicros) with
            | none => .error .invalidTimestamp
            | some timestampNs =>
              let dataLength := length - 9
              if rest.length < dataLength then .error .eofFill
              else
                let data := rest.take dataLength
                match DataPack.decode data with
                | none => .error .decodeFail
                | some dataPack =>
                  .ok (some (⟨timestampNs, dataPack, data⟩, rest.drop dataLength))

/-- State of the mixed reader's two-state pull machine. -/
inductive MixedState
  | expectProtobuf
  | expectTimestamp
deriving DecidableEq

/-- Embedding of `MixedPacketReader`: remaining input, state, and the
parked protobuf (`pending_protobuf`). -/
structure MixedReader where
  input : Bytes
  state : MixedState
  pending : Option (DataPack × Bytes)
deriving DecidableEq

/-- The `ExpectTimestamp` arm of `MixedPacketReader::read_packet`
(reader.rs lines 241-264), entered with a freshly read length. -/
def readMixedTimestampArm (pending : Option (DataPack × Bytes)) (length : Nat)
    (rest : Bytes) : Except ReadErr (Option (PacketInfo × MixedReader)) :=
  if length ≠ 8 then .error .invalidTsLength
  else
    match readU64Be rest with
    | .error e => .error e
    | .ok (timestampMicros, rest) =>
      match fromTimestampMicros (u64AsI64 timestampMicros) with
      | none => .error .invalidTimestamp
      | some timestampNs =>
        match pending with
        | none => .error .missingProtobuf
        | some (dataPack, rawData) =>
          .ok (some (⟨timestampNs, dataPack, rawData⟩,
            ⟨rest, .expectProtobuf, none⟩))

/-- The `ExpectTimestamp` loop iteration: read the length header, then
run the timestamp arm; EOF at the length read is end-of-stream. -/
def readMixedTimestampState (pending : Option (DataPack × Bytes)) (input : Bytes) :
    Except ReadErr (Option (PacketInfo × MixedReader)) :=
  match readU16Be input with
  | .error e => if isEofErr e then .ok none else .error e
  | .ok (length, rest) => readMixedTimestampArm pending length rest

/-- Embedding of `MixedPacketReader::read_packet` (reader.rs lines
209-267).  In the `ExpectProtobuf` state the loop decodes the protobuf
record, parks it, and continues into the timestamp state; `ok none` is
the end-of-stream sentinel returned when EOF hits a length read. -/
def readPacketMixed (r : MixedReader) : Except ReadErr (Option (PacketInfo × MixedReader)) :=
  match r.state with
  | .expectTimestamp => readMixedTimestampState r.pending r.input
  | .expectProtobuf =>
    match readU16Be r.input with
    | .error e => if isEofErr e then .ok none else .error e
    | .ok (length, rest) =>
      if length < 3 then .error .invalidProtoLength
      else
        match readU8 rest with
        | .error e => .error e
        | .ok (_unused, rest) =>
          let dataLength := length - 1
          if rest.length < dataLength then .error .eofFill
          else
            let data := rest.take dataLength
            match DataPack.decode data with
            | none => .error .decodeFail
            | some dataPack =>
              readMixedTimestampState (some (dataPack, data)) (rest.drop dataLength)

/-- Embedding of `Client::process_receive_buffer` (client.rs lines
233-274): while at least two bytes are buffered, read the `u16`
big-endian length, cut `length + 2` untouched message bytes, append the
trailer — `length.to_be_bytes()` of the `u8` constant 8 (a single byte
`[8]`) followed by the 8-byte big-endian `i64` reception timestamp in
microseconds — and persist the result.  The reception timestamps
(`Utc::now().timestamp_micros()`) are supplied as a list, one per
message; an incomplete tail is left unsaved, as in the source's `break`. -/
def processReceiveBufferAux : Nat → Bytes → List Int → Bytes
  | 0, _, _ => []
  | fuel + 1, buf, tss =>
    match buf with
    | b0 :: b1 :: _ =>
      let packetLength := b0 * 256 + b1 + 2
      if packetLength ≤ buf.length then
        buf.take packetLength ++ 8 :: i64BeBytes (tss.headD 0)
          ++ processReceiveBufferAux fuel (buf.drop packetLength) tss.tail
      else []
    | _ => []

/-- `process_receive_buffer` on a receive buffer: each iteration consumes
at least two bytes, so the buffer length bounds the iteration count. -/
def processReceiveBuffer (buf : Bytes) (tss : List Int) : Bytes :=
  processReceiveBufferAux buf.length buf tss

/-- The frame-splitting loop of `SegmentBuilder::add` (converter.rs lines
255-289): walk the frames, accumulating encoded bytes in `check_buf` and
frames in `packets_buf`; when a frame would push the byte budget to
`15 * 1024` or beyond, emit the accumulated frames as a successor packet
and clear both buffers — the source's `else` branch neither pushes the
current frame nor counts its bytes.  After the loop a non-empty
`packets_buf` is emitted.  Each emitted packet carries the (shifted)
timestamp and the original control, and empty `raw_data`. -/
def splitFramesLoop (ts : Int) (control : Option DataPackControl) :
    List DataFrame → Nat → List DataFrame → List PacketInfo
  | [], _, packetsBuf =>
    if packetsBuf.isEmpty then [] else [⟨ts, ⟨control, packetsBuf⟩, []⟩]
  | f :: rest, checkLen, packetsBuf =>
    let frameBytes := PacketInfo.frameToVec f
    if checkLen + frameBytes.length < 15 * 1024 then
      splitFramesLoop ts control rest (checkLen + frameBytes.length) (packetsBuf ++ [f])
    else
      ⟨ts, ⟨control, packetsBuf⟩, []⟩ :: splitFramesLoop ts control rest 0 []

/-- Embedding of `SegmentBuilder::add` (converter.rs lines 247-289),
returning the packets appended to the current last segment.  The incoming
timestamp is first shifted by `TimeDelta::microseconds(timeshift)`, i.e.
by `timeshift * 1000` nanoseconds; then a packet whose standard framing
is at least `15 * 1024` bytes goes through the frame-splitting loop,
anything smaller is appended unchanged. -/
def segmentBuilderAdd (timeshift : Int) (p : PacketInfo) : List PacketInfo :=
  let shifted : PacketInfo := ⟨p.timestampNs + timeshift * 1000, p.dataPack, p.rawData⟩
  if 15 * 1024 ≤ shifted.toVec.length then
    splitFramesLoop shifted.timestampNs shifted.dataPack.control
      shifted.dataPack.frames 0 []
  else [shifted]

/-- The single frame used in the segment-splitting counterexample: one
`UpdateObject` with a `payload` one byte longer than `R`. -/
def c3Frame (R : Bytes) : DataFrame := ⟨some (.updateObject ⟨none, 0, 0, 0 :: R⟩)⟩

/-- The splitting counterexample's packet: two identical 7684-byte-framed
`UpdateObject` frames, timestamp 0, no control. -/
def c3Packet : PacketInfo :=
  { timestampNs := 0,
    dataPack := { control := none,
                  frames := [c3Frame (List.replicate 7672 0),
                             c3Frame (List.replicate 7672 0)] },
    rawData := [] }

/-- Reading back a big-endian `u16`. -/
theorem readU16Be_u16BeBytes (n : Nat) (rest : Bytes) :
    readU16Be (u16BeBytes n ++ rest) = .ok (n % 65536, rest) := by
  simp only [u16BeBytes, List.cons_append, List.nil_append, readU16Be, Except.ok.injEq,
    Prod.mk.injEq]
  exact ⟨by omega, trivial⟩

/-- Reading back a big-endian `u64`. -/
theorem readU64Be_u64BeBytes (n : Nat) (rest : Bytes) :
    readU64Be (u64BeBytes n ++ rest) = .ok (n % 2 ^ 64, rest) := by
  simp only [u64BeBytes, List.cons_append, List.nil_append, readU64Be, Except.ok.injEq,
    Prod.mk.injEq]
  exact ⟨by omega, trivial⟩

/-- Reading back a big-endian `i64`. -/
theorem readU64Be_i64BeBytes (v : Int) (rest : Bytes) :
    readU64Be (i64BeBytes v ++ rest) = .ok ((v % (2 ^ 64 : Int)).toNat, rest) := by
  rw [i64BeBytes, readU64Be_u64BeBytes]
  have := int_emod_toNat_lt v
  congr 1
  exact Prod.ext (Nat.mod_eq_of_lt this) rfl

/-- C1 (amended): for every well-formed packet whose custom-order-encoded
DataPack fits in the `u16` length budget (at most 65526 bytes) and whose
microsecond timestamp is representable, the standard reader re-reads the
record `to_vec` writes, recovering the timestamp at microsecond
precision and the DataPack exactly; moreover the encoded DataPack bytes
parse as all frames entries (field number 16) followed by the control
varint. -/
theorem readPacketStandard_toVec (p : PacketInfo) (rest : Bytes)
    (hwf : p.dataPack.wf = true)
    (hts1 : chronoTsMicrosMin ≤ p.timestampMicros)
    (hts2 : p.timestampMicros ≤ chronoTsMicrosMax)
    (hlen : (encodeDataPackCustomOrder p.dataPack).length ≤ 65526) :
    readPacketStandard (p.toVec ++ rest) =
      .ok (some (⟨p.timestampMicros * 1000, p.dataPack,
        encodeDataPackCustomOrder p.dataPack⟩, rest)) ∧
    (p.timestampMicros * 1000).fdiv 1000 = p.timestampMicros ∧
    decodeFields (encodeDataPackCustomOrder p.dataPack) =
      some (framesFieldList p.dataPack.frames ++ controlFieldList p.dataPack.control) ∧
    (∀ x ∈ controlFieldList p.dataPack.control, x.1 ≠ 16) := by
  have hi64 : i64WF p.timestampMicros = true := by
    simp only [chronoTsMicrosMin] at hts1
    simp only [chronoTsMicrosMax] at hts2
    simp only [i64WF, Bool.and_eq_true, decide_eq_true_eq]
    omega
  refine ⟨?_, ?_, decodeFields_encodeDataPackCustomOrder p.dataPack hwf,
    controlFieldList_ne_sixteen p.dataPack.control⟩
  · simp only [PacketInfo.toVec, PacketInfo.protobufToVec]
    have hlform : (9 + (encodeDataPackCustomOrder p.dataPack).length % 65536) % 65536 =
        9 + (encodeDataPackCustomOrder p.dataPack).length := by omega
    rw [hlform]
    simp only [List.append_assoc]
    rw [readPacketStandard, readU16Be_u16BeBytes]
    have hl2 : (9 + (encodeDataPackCustomOrder p.dataPack).length) % 65536 =
        9 + (encodeDataPackCustomOrder p.dataPack).length := by omega
    rw [hl2]
    have hnot : ¬ (9 + (encodeDataPackCustomOrder p.dataPack).length < 9) := by omega
    simp only [hnot, if_false]
    simp only [List.singleton_append, readU8]
    norm_num
    rw [readU64Be_i64BeBytes]
    try dsimp only
    rw [u64AsI64_emod p.timestampMicros hi64]
    rw [fromTimestampMicros]
    simp only [hts1, hts2, and_self, if_true]
    try dsimp only
    have hge : ¬ ((encodeDataPackCustomOrder p.dataPack ++ rest).length <
        (encodeDataPackCustomOrder p.dataPack).length) := by simp
    simp only [hge, if_false]
    rw [List.take_left, List.drop_left]
    rw [DataPack.decode_encodeCustomOrder p.dataPack hwf]
  · exact Int.mul_fdiv_cancel p.timestampMicros (by norm_num)

instance {ε α : Type} [DecidableEq ε] [DecidableEq α] : DecidableEq (Except ε α) :=
  fun x y =>
  match x, y with
  | .error a, .error b =>
    if h : a = b then isTrue (congrArg Except.error h)
    else isFalse (fun hc => h (Except.error.inj hc))
  | .ok a, .ok b =>
    if h : a = b then isTrue (congrArg Except.ok h)
    else isFalse (fun hc => h (Except.ok.inj hc))
  | .error _, .ok _ => isFalse (fun hc => Except.noConfusion hc)
  | .ok _, .error _ => isFalse (fun hc => Except.noConfusion hc)

/-- Concrete packet used to witness the standard-framing roundtrip. -/
def c1WitnessPacket : PacketInfo :=
  { timestampNs := 100000,
    dataPack := { control := some (.data true),
                  frames := [⟨some (.room ⟨[65], 5, 6⟩)⟩] },
    rawData := [] }

/-- C1 witness: the roundtrip theorem applied to a concrete packet with
one Room frame and a `Data(true)` control at timestamp 100 µs. -/
theorem readPacketStandard_toVec_witness :
    readPacketStandard (c1WitnessPacket.toVec ++ []) =
      .ok (some (⟨c1WitnessPacket.timestampMicros * 1000, c1WitnessPacket.dataPack,
        encodeDataPackCustomOrder c1WitnessPacket.dataPack⟩, [])) :=
  (readPacketStandard_toVec c1WitnessPacket [] (by decide) (by decide) (by decide)
    (by decide)).1

/-- Concrete oversized packet: one `UpdateObject` frame with a
65513-byte payload, whose custom-order DataPack encoding is 65527 bytes. -/
def c1BigPacket : PacketInfo :=
  { timestampNs := 0,
    dataPack := { control := none,
                  frames := [⟨some (.updateObject
                    ⟨none, 0, 0, 0 :: List.replicate 65512 0⟩)⟩] },
    rawData := [] }

/-- Core of the overflow counterexample, stated over an abstract 65512-byte
payload tail so the kernel never evaluates the concrete list. -/
theorem readPacketStandard_overflow_aux (R : Bytes) (hRlen : R.length = 65512) :
    readPacketStandard (PacketInfo.toVec
      ⟨0, ⟨none, [⟨some (.updateObject ⟨none, 0, 0, 0 :: R⟩)⟩]⟩, []⟩) =
      .error .invalidLength := by
  have hv2 : encodeVarint 65513 = [233, 255, 3] := by
    simp [encodeVarint_step, encodeVarint_small]
  have hv3 : encodeVarint 1034 = [138, 8] := by
    simp [encodeVarint_step, encodeVarint_small]
  have hv4 : encodeVarint 65517 = [237, 255, 3] := by
    simp [encodeVarint_step, encodeVarint_small]
  have hv5 : encodeVarint 130 = [130, 1] := by
    simp [encodeVarint_step, encodeVarint_small]
  have hv6 : encodeVarint 65522 = [242, 255, 3] := by
    simp [encodeVarint_step, encodeVarint_small]
  have hk5 : encodeKey 5 2 = [42] := by
    rw [encodeKey]
    norm_num
    exact encodeVarint_small 42 (by norm_num)
  simp only [PacketInfo.toVec, PacketInfo.protobufToVec]
  have hc : (0 :: R).length = 65513 := by simp [hRlen]
  have hz1 : encodeI64Field 1 (0 : Int) = [] := by simp [encodeI64Field]
  have hz2 : encodeI64Field 2 (0 : Int) = [] := by simp [encodeI64Field]
  have h1 : (UpdateObject.encode ⟨none, 0, 0, 0 :: R⟩).length = 65517 := by
    rw [UpdateObject.encode]
    simp only [encodeI32Field, hz1, hz2, encodeTargetField, List.nil_append,
      encodeBytesField, List.isEmpty_cons, Bool.false_eq_true, if_false,
      encodeLenField, hk5, hc, hv2, List.length_append, List.length_cons, hRlen]
    norm_num
  have h2 : (DataFrame.encode ⟨some (.updateObject ⟨none, 0, 0, 0 :: R⟩)⟩).length
      = 65522 := by
    rw [DataFrame.encode]
    have hk129 : encodeKey 129 2 = [138, 8] := by
      rw [encodeKey]
      norm_num
      exact hv3
    simp only [encodeLenField, hk129, h1, hv4, List.length_append]
    norm_num [h1]
  have h3 : (encodeDataPackCustomOrder ⟨none, [⟨some (.updateObject
      ⟨none, 0, 0, 0 :: R⟩)⟩]⟩).length = 65527 := by
    rw [encodeDataPackCustomOrder]
    have hk16 : encodeKey 16 2 = [130, 1] := by
      rw [encodeKey]
      norm_num
      exact hv5
    simp only [List.map_cons, List.map_nil, List.flatten_cons, List.flatten_nil,
      encodeControl, encodeFrame, encodeLenField, hk16, h2, hv6, List.append_nil,
      List.length_append]
    norm_num [h2]
  rw [h3]
  have hlen0 : (9 + 65527 % 65536) % 65536 = 0 := by norm_num
  rw [hlen0]
  rw [show u16BeBytes 0 = [0, 0] from rfl]
  rw [readPacketStandard]
  simp only [List.cons_append, List.nil_append]
  rw [show ∀ tl : Bytes, readU16Be (0 :: 0 :: tl) = .ok (0 * 256 + 0, tl) from
    fun tl => rfl]
  have hlt : (0 * 256 + 0 : Nat) < 9 := by norm_num
  simp only [hlt, if_true]

/-- C1 counterexample: `to_vec` computes its record length in `u16`, so
for this packet (whose encoded DataPack is 65527 bytes) the length field
wraps to 0 and the standard reader rejects its own writer's record
instead of returning the packet — `decode(encode(P)) = P` fails as
stated for large packets. -/
theorem readPacketStandard_toVec_overflow :
    readPacketStandard c1BigPacket.toVec = .error .invalidLength :=
  readPacketStandard_overflow_aux (List.replicate 65512 0)
    (List.length_replicate 65512 0)

/-- C2: the capture client persists each complete server message followed
by a trailer whose length field is the single byte `8`, but the mixed
reader reads a 2-byte big-endian length for the timestamp record, so on
the client's own stream it parses `8` and the timestamp's first byte as
the length `2048` and fails with `Invalid timestamp packet length`
instead of yielding the message with the trailer's timestamp.  Shown on
one complete server message `00 03 01 10 01` (a `Data(true)` control)
received at 100 µs. -/
theorem processReceiveBuffer_mixed_reader_rejects :
    processReceiveBuffer [0, 3, 1, 16, 1] [100] =
      [0, 3, 1, 16, 1, 8, 0, 0, 0, 0, 0, 0, 0, 100] ∧
    readPacketMixed ⟨processReceiveBuffer [0, 3, 1, 16, 1] [100],
      .expectProtobuf, none⟩ = .error .invalidTsLength := by
  constructor
  · decide
  · decide

/-- C7: EOF at a length-prefix read is the graceful end-of-stream — in
either reader state, an input shorter than the 2-byte length prefix makes
`read_packet` return `Ok(None)`. -/
theorem readPacketMixed_eof_at_length (r : MixedReader) (h : r.input.length < 2) :
    readPacketMixed r = .ok none := by
  obtain ⟨input, state, pending⟩ := r
  simp only at h
  match input, h with
  | [], _ => cases state <;> rfl
  | [b], _ => cases state <;> rfl

/-- C7 witness: a one-byte stream in the `ExpectTimestamp` state (a parked
protobuf mid-pair) ends gracefully. -/
theorem readPacketMixed_eof_at_length_witness :
    (MixedReader.input ⟨[0], .expectTimestamp, some (⟨none, []⟩, [])⟩).length < 2 ∧
    readPacketMixed ⟨[0], .expectTimestamp, some (⟨none, []⟩, [])⟩ = .ok none :=
  ⟨by decide, readPacketMixed_eof_at_length
    ⟨[0], .expectTimestamp, some (⟨none, []⟩, [])⟩ (by decide)⟩

/-- C7 counterexample: EOF immediately AFTER a record's 2-byte length
prefix has been consumed is an error, not `Ok(None)`: the `read_exact`
failure of the next read propagates through `?` without an
`is_eof_error` check, in both states. -/
theorem readPacketMixed_eof_after_length_errors :
    readPacketMixed ⟨[0, 3], .expectProtobuf, none⟩ = .error .eofFill ∧
    readPacketMixed ⟨[0, 8], .expectTimestamp, some (⟨none, []⟩, [])⟩ =
      .error .eofFill := by
  constructor
  · decide
  · decide


/-- Loop exit with an empty accumulator emits nothing. -/
theorem splitFramesLoop_nil (ts : Int) (c : Option DataPackControl) (k : Nat) :
    splitFramesLoop ts c [] k [] = [] := by
  simp [splitFramesLoop]

/-- Loop step under the byte budget: the frame is accumulated. -/
theorem splitFramesLoop_cons_lt (ts : Int) (c : Option DataPackControl)
    (f : DataFrame) (rest : List DataFrame) (k : Nat) (buf : List DataFrame)
    (h : k + (PacketInfo.frameToVec f).length < 15 * 1024) :
    splitFramesLoop ts c (f :: rest) k buf =
      splitFramesLoop ts c rest (k + (PacketInfo.frameToVec f).length) (buf ++ [f]) := by
  rw [splitFramesLoop]
  simp only [if_pos h]

/-- Loop step at or over the byte budget: the accumulated frames are
emitted and the current frame is dropped. -/
theorem splitFramesLoop_cons_ge (ts : Int) (c : Option DataPackControl)
    (f : DataFrame) (rest : List DataFrame) (k : Nat) (buf : List DataFrame)
    (h : ¬ k + (PacketInfo.frameToVec f).length < 15 * 1024) :
    splitFramesLoop ts c (f :: rest) k buf =
      ⟨ts, ⟨c, buf⟩, []⟩ :: splitFramesLoop ts c rest 0 [] := by
  rw [splitFramesLoop]
  simp only [if_neg h]

/-- Core of the splitting counterexample over an abstract 7672-byte
payload tail: the packet with two identical 7684-byte-framed frames is
over the 15 KiB threshold, and the split emits only the first frame —
the boundary frame that trips the byte budget is dropped by the loop's
`else` branch. -/
theorem segmentBuilderAdd_drops_frame_aux (R : Bytes) (hRlen : R.length = 7672) :
    15 * 1024 ≤ (PacketInfo.toVec ⟨0, ⟨none, [c3Frame R, c3Frame R]⟩, []⟩).length ∧
    segmentBuilderAdd 0 ⟨0, ⟨none, [c3Frame R, c3Frame R]⟩, []⟩ =
      [⟨0, ⟨none, [c3Frame R]⟩, []⟩] ∧
    ((segmentBuilderAdd 0 ⟨0, ⟨none, [c3Frame R, c3Frame R]⟩, []⟩).map
      (fun q => q.dataPack.frames)).flatten ≠ [c3Frame R, c3Frame R] := by
  have hv2 : encodeVarint 7673 = [249, 59] := by
    simp [encodeVarint_step, encodeVarint_small]
  have hv3 : encodeVarint 1034 = [138, 8] := by
    simp [encodeVarint_step, encodeVarint_small]
  have hv4 : encodeVarint 7676 = [252, 59] := by
    simp [encodeVarint_step, encodeVarint_small]
  have hv5 : encodeVarint 130 = [130, 1] := by
    simp [encodeVarint_step, encodeVarint_small]
  have hv6 : encodeVarint 7680 = [128, 60] := by
    simp [encodeVarint_step, encodeVarint_small]
  have hk5 : encodeKey 5 2 = [42] := by
    rw [encodeKey]
    norm_num
    exact encodeVarint_small 42 (by norm_num)
  have hc : (0 :: R).length = 7673 := by simp [hRlen]
  have hz1 : encodeI64Field 1 (0 : Int) = [] := by simp [encodeI64Field]
  have hz2 : encodeI64Field 2 (0 : Int) = [] := by simp [encodeI64Field]
  have h1 : (UpdateObject.encode ⟨none, 0, 0, 0 :: R⟩).length = 7676 := by
    rw [UpdateObject.encode]
    simp only [encodeI32Field, hz1, hz2, encodeTargetField, List.nil_append,
      encodeBytesField, List.isEmpty_cons, Bool.false_eq_true, if_false,
      encodeLenField, hk5, hc, hv2, List.length_append, List.length_cons, hRlen]
    norm_num
  have h2 : (DataFrame.encode (c3Frame R)).length = 7680 := by
    rw [c3Frame, DataFrame.encode]
    have hk129 : encodeKey 129 2 = [138, 8] := by
      rw [encodeKey]
      norm_num
      exact hv3
    simp only [encodeLenField, hk129, h1, hv4, List.length_append]
    norm_num [h1]
  have hf : (PacketInfo.frameToVec (c3Frame R)).length = 7684 := by
    rw [PacketInfo.frameToVec, encodeFrame]
    have hk16 : encodeKey 16 2 = [130, 1] := by
      rw [encodeKey]
      norm_num
      exact hv5
    simp only [encodeLenField, hk16, h2, hv6, List.length_append]
    norm_num [h2]
  have hdp : (encodeDataPackCustomOrder ⟨none, [c3Frame R, c3Frame R]⟩).length
      = 15368 := by
    rw [encodeDataPackCustomOrder]
    simp only [List.map_cons, List.map_nil, List.flatten_cons, List.flatten_nil,
      encodeControl, List.append_nil, List.length_append]
    have hfe : (encodeFrame (c3Frame R)).length = 7684 := hf
    omega
  have hu16 : ∀ n : Nat, (u16BeBytes n).length = 2 := fun n => rfl
  have hi64 : ∀ v : Int, (i64BeBytes v).length = 8 := fun v => rfl
  have htv : (PacketInfo.toVec ⟨0, ⟨none, [c3Frame R, c3Frame R]⟩, []⟩).length
      = 15379 := by
    rw [PacketInfo.toVec]
    simp only [List.length_append, hu16, hi64, List.length_cons, List.length_nil,
      PacketInfo.protobufToVec, hdp]
  refine ⟨by rw [htv]; norm_num, ?_, ?_⟩
  · rw [segmentBuilderAdd]
    simp only [zero_mul, add_zero]
    rw [if_pos (by rw [htv]; norm_num)]
    rw [splitFramesLoop_cons_lt _ _ _ _ _ _ (by rw [hf]; norm_num)]
    rw [splitFramesLoop_cons_ge _ _ _ _ _ _ (by rw [hf]; norm_num)]
    rw [splitFramesLoop_nil]
    rfl
  · rw [segmentBuilderAdd]
    simp only [zero_mul, add_zero]
    rw [if_pos (by rw [htv]; norm_num)]
    rw [splitFramesLoop_cons_lt _ _ _ _ _ _ (by rw [hf]; norm_num)]
    rw [splitFramesLoop_cons_ge _ _ _ _ _ _ (by rw [hf]; norm_num)]
    rw [splitFramesLoop_nil]
    intro hcon
    have := congrArg List.length hcon
    simp at this

/-- C3 counterexample: a 15379-byte packet of two frames is split, but
the admitted packets hold only the first frame — the frame that crosses
the byte budget is neither pushed to `packets_buf` nor re-examined, so
the concatenation of the successors' frame lists loses it and does not
equal the original frame list. -/
theorem segmentBuilderAdd_drops_boundary_frame :
    15 * 1024 ≤ c3Packet.toVec.length ∧
    segmentBuilderAdd 0 c3Packet =
      [⟨0, ⟨none, [c3Frame (List.replicate 7672 0)]⟩, []⟩] ∧
    ((segmentBuilderAdd 0 c3Packet).map (fun q => q.dataPack.frames)).flatten ≠
      c3Packet.dataPack.frames :=
  segmentBuilderAdd_drops_frame_aux (List.replicate 7672 0)
    (List.length_replicate 7672 0)
/-- C6: a below-threshold packet is admitted unchanged except for the
timeshift, which the code applies as `TimeDelta::microseconds(t)` — with
`t = 1000` the stored timestamp moves by 1000000 ns (1000 microseconds),
not by the 1000 milliseconds (`1000 * 1000000` ns) the claim states. -/
theorem segmentBuilderAdd_timeshift_micros :
    segmentBuilderAdd 1000 ⟨0, ⟨none, []⟩, []⟩ = [⟨1000000, ⟨none, []⟩, []⟩] ∧
    (1000000 : Int) ≠ 1000 * 1000000 := by
  constructor
  · decide
  · decide


/-- `pat` begins the byte list `hay` (helper for substring search). -/
def leadsWith : Bytes → Bytes → Bool
  | [], _ => true
  | _ :: _, [] => false
  | p :: ps, h :: hs => p == h && leadsWith ps hs

/-- Byte-level model of `String::from_utf8_lossy(name).contains(pat)` for
the ASCII camera patterns: `pat` occurs contiguously in `hay`. -/
def containsSub : Bytes → Bytes → Bool
  | [], pat => pat.isEmpty
  | h :: t, pat => leadsWith pat (h :: t) || containsSub t pat

/-- The bytes of `"Camera/FixedCamera"`. -/
def fixedCameraPat : Bytes :=
  [67, 97, 109, 101, 114, 97, 47, 70, 105, 120, 101, 100, 67, 97, 109, 101, 114, 97]

/-- The bytes of `"Camera/Cameraman"`. -/
def cameramanPat : Bytes :=
  [67, 97, 109, 101, 114, 97, 47, 67, 97, 109, 101, 114, 97, 109, 97, 110]

/-- The index scan of `swap_order` (converter.rs lines 494-504): walk the
frames, remembering the last `InstantiateObject` index whose prefab name
contains `Camera/FixedCamera`, else the last containing
`Camera/Cameraman`. -/
def scanCamera : List DataFrame → Nat → Option Nat → Option Nat →
    Option Nat × Option Nat
  | [], _, fi, ci => (fi, ci)
  | f :: rest, i, fi, ci =>
    match f.message with
    | some (.instantiateObject obj) =>
      if containsSub obj.prefabName fixedCameraPat then
        scanCamera rest (i + 1) (some i) ci
      else if containsSub obj.prefabName cameramanPat then
        scanCamera rest (i + 1) fi (some i)
      else scanCamera rest (i + 1) fi ci
    | _ => scanCamera rest (i + 1) fi ci

/-- `Vec::swap` on in-range indices (out-of-range cannot arise from the
index scan, whose indices come from the enumeration). -/
def listSwap (l : List DataFrame) (i j : Nat) : List DataFrame :=
  match l.get? i, l.get? j with
  | some a, some b => (l.set i b).set j a
  | _, _ => l

/-- Embedding of `ConversionContext::swap_order` (converter.rs lines
490-512): when both cameras are present it swaps them only when
`fixed_idx > cameraman_idx`, i.e. it moves `FixedCamera` in front of
`Cameraman`. -/
def swapOrder (dfs : List DataFrame) : List DataFrame :=
  match scanCamera dfs 0 none none with
  | (some fi, some ci) => if ci < fi then listSwap dfs fi ci else dfs
  | _ => dfs

/-- Embedding of `ConversionContext::compare_dataframes`:
`InstantiateObject` sorts before everything else, ties are equal. -/
def compareDataframes (a b : DataFrame) : Ordering :=
  match a.message, b.message with
  | some (.instantiateObject _), some (.instantiateObject _) => .eq
  | some (.instantiateObject _), _ => .lt
  | _, some (.instantiateObject _) => .gt
  | _, _ => .eq

/-- Stable insertion into an already sorted accumulator: the new element
passes every element it does not strictly precede, as in a stable
`sort_by`. -/
def insertByOrd (cmp : DataFrame → DataFrame → Ordering) (x : DataFrame) :
    List DataFrame → List DataFrame
  | [] => [x]
  | y :: ys => if cmp x y = .lt then x :: y :: ys else y :: insertByOrd cmp x ys

/-- Left-fold insertion sort, the stable-sort semantics of
`Vec::sort_by`. -/
def sortByOrdAux (cmp : DataFrame → DataFrame → Ordering) :
    List DataFrame → List DataFrame → List DataFrame
  | acc, [] => acc
  | acc, x :: xs => sortByOrdAux cmp (insertByOrd cmp x acc) xs

/-- Stable sort by a comparator (`Vec::sort_by`). -/
def sortByOrd (cmp : DataFrame → DataFrame → Ordering)
    (l : List DataFrame) : List DataFrame :=
  sortByOrdAux cmp [] l

/-- The target rewrite of `insert_initial_dataframes` (converter.rs lines
908-933, audio processing off): `InstantiateObject` and `UpdateObject`
targets become `CurrentPlayer`. -/
def setCurrentPlayer (f : DataFrame) : DataFrame :=
  match f.message with
  | some (.instantiateObject obj) =>
    ⟨some (.instantiateObject { obj with target := some .currentPlayer })⟩
  | some (.updateObject obj) =>
    ⟨some (.updateObject { obj with target := some .currentPlayer })⟩
  | _ => f

/-- Embedding of `ConversionContext::insert_initial_dataframes`: rewrite
the target, push the frame, run `swap_order`, then the stable sort by
`compare_dataframes`. -/
def insertInitialDataframes (acc : List DataFrame) (f : DataFrame) : List DataFrame :=
  sortByOrd compareDataframes (swapOrder (acc ++ [setCurrentPlayer f]))

/-- An `InstantiateObject` frame named `Camera/Cameraman`. -/
def cameramanFrame : DataFrame :=
  ⟨some (.instantiateObject ⟨none, 1, [], cameramanPat, []⟩)⟩

/-- An `InstantiateObject` frame named `Camera/FixedCamera`. -/
def fixedCameraFrame : DataFrame :=
  ⟨some (.instantiateObject ⟨none, 2, [], fixedCameraPat, []⟩)⟩

/-- C4: inserting `Camera/Cameraman` and then `Camera/FixedCamera` into
an empty initial-dataframes list leaves the list as
`[FixedCamera, Cameraman]`: `swap_order` swaps when `fixed_idx >
cameraman_idx`, so it enforces `FixedCamera` BEFORE `Cameraman` —
the reverse of the claimed invariant (and of the source's own comment)
— and the stable sort keeps that order.  The last two conjuncts pin
that the two frames indeed carry the two camera prefab names. -/
theorem insertInitialDataframes_camera_order_violated :
    insertInitialDataframes (insertInitialDataframes [] cameramanFrame)
        fixedCameraFrame =
      [setCurrentPlayer fixedCameraFrame, setCurrentPlayer cameramanFrame] ∧
    containsSub (InstantiateObject.prefabName ⟨none, 2, [], fixedCameraPat, []⟩)
      fixedCameraPat = true ∧
    containsSub (InstantiateObject.prefabName ⟨none, 1, [], cameramanPat, []⟩)
      cameramanPat = true := by
  refine ⟨?_, ?_, ?_⟩
  · decide
  · decide
  · decide


/-- Embedding of `Segment` (converter.rs lines 203-207): sequence number
and packets; the float `duration` field is carried separately as the
microsecond count computed by `write_to_file`. -/
structure Segment where
  number : Nat
  packets : List PacketInfo
deriving DecidableEq

/-- `TimeDelta::num_microseconds` on a nanosecond delta: whole seconds
times 10^6 plus the positive nanosecond remainder truncated to
microseconds (chrono keeps `0 ≤ nanos < 10^9`). -/
def timeDeltaNumMicros (deltaNs : Int) : Int :=
  deltaNs.fdiv 1000000000 * 1000000 + (deltaNs.emod 1000000000).fdiv 1000

/-- The duration computed for the last segment: microseconds between its
first and last packet, with `num_microseconds().unwrap_or(0)` turning an
`i64` overflow into 0.  (The source then divides by 10^6 into an `f64`;
the microsecond count is kept exact here.) -/
def segDuration (firstNs lastNs : Int) : Int :=
  let m := timeDeltaNumMicros (lastNs - firstNs)
  if m < -(2 ^ 63) ∨ 2 ^ 63 ≤ m then 0 else m

/-- The unwrap chain of `SegmentBuilder::write_to_file` (converter.rs
lines 321-408), with file IO stripped: `none` is a panic of one of the
five `unwrap()`s, in source order — last segment, last packet and first
packet of the last segment, first segment, first packet of the first
segment. -/
def writeToFilePure (segments : List Segment) : Option Int :=
  match segments.getLast? with
  | none => none
  | some lastSeg =>
    match lastSeg.packets.getLast? with
    | none => none
    | some lastPkt =>
      match lastSeg.packets.head? with
      | none => none
      | some firstPkt =>
        match segments.head? with
        | none => none
        | some firstSeg =>
          match firstSeg.packets.head? with
          | none => none
          | some _ => some (segDuration firstPkt.timestampNs lastPkt.timestampNs)

/-- C10: `write_to_file` panics — instead of returning an error — on
every builder state with no segments, or an empty last segment, or an
empty first segment. -/
theorem writeToFilePure_panics (segs : List Segment)
    (h : segs = [] ∨ (∃ s, segs.getLast? = some s ∧ s.packets = []) ∨
      (∃ s, segs.head? = some s ∧ s.packets = [])) :
    writeToFilePure segs = none := by
  unfold writeToFilePure
  rcases h with rfl | ⟨s, hl, hp⟩ | ⟨s, hh, hp⟩
  · rfl
  · rw [hl]
    dsimp only
    rw [hp]
    rfl
  · cases hl : segs.getLast? with
    | none => rfl
    | some t =>
      dsimp only
      cases ht : t.packets.getLast? with
      | none => rfl
      | some lastPkt =>
        dsimp only
        cases hth : t.packets.head? with
        | none => rfl
        | some firstPkt =>
          dsimp only
          rw [hh]
          dsimp only
          rw [hp]
          rfl

/-- C10 witness: one segment with no packets (a conversion where no
packet was admitted) panics. -/
theorem writeToFilePure_panics_witness :
    ((([⟨0, []⟩] : List Segment) = [] ∨
      (∃ s, ([⟨0, []⟩] : List Segment).getLast? = some s ∧ s.packets = []) ∨
      (∃ s, ([⟨0, []⟩] : List Segment).head? = some s ∧ s.packets = []))) ∧
    writeToFilePure [⟨0, []⟩] = none :=
  ⟨Or.inr (Or.inl ⟨⟨0, []⟩, rfl, rfl⟩),
    writeToFilePure_panics [⟨0, []⟩] (Or.inr (Or.inl ⟨⟨0, []⟩, rfl, rfl⟩))⟩


/-- chrono's `impl Div<i32> for TimeDelta` on a nanosecond total: split
into whole seconds (floor) and a non-negative nanosecond part (chrono's
invariant `0 <= nanos < 10^9`), divide each with Rust's truncating `/`,
and carry the second remainder into nanoseconds.  The post-division
normalisation only moves whole seconds between the fields, so the total
is as below. -/
def timeDeltaDiv (deltaNs rhs : Int) : Int :=
  let secs := deltaNs.fdiv 1000000000
  let nanos := deltaNs.emod 1000000000
  secs.tdiv rhs * 1000000000 + (nanos.tdiv rhs + (secs.tmod rhs * 1000000000).tdiv rhs)

/-- In-bounds indexing `packetinfo_buffer[i]` (the callers pass indices
from the buffer's own enumeration). -/
def pktD (buffer : List PacketInfo) (i : Nat) : PacketInfo :=
  buffer.getD i ⟨0, ⟨none, []⟩, []⟩

/-- The assignment `packetinfo_buffer[i].timestamp = ts`. -/
def setTs (buffer : List PacketInfo) (i : Nat) (ts : Int) : List PacketInfo :=
  match buffer.get? i with
  | some p => buffer.set i ⟨ts, p.dataPack, p.rawData⟩
  | none => buffer

/-- The inclusive index range `start_index..=end_index`. -/
def rangeIncl (s e : Nat) : List Nat := (List.range (e + 1 - s)).map (fun k => s + k)

/-- A packet counts as a music packet when one of its frames is an
`UpdateObject` whose `object_id` is a known `MusicBroadcaster`
(converter.rs lines 975-984; the source's `break` makes the flag
equivalent to an existence check). -/
def isMusicPacket (musicBroadcasters : List Int) (p : PacketInfo) : Bool :=
  p.dataPack.frames.any (fun f =>
    match f.message with
    | some (.updateObject obj) => musicBroadcasters.contains obj.objectId
    | _ => false)

/-- The uniform-distribution loop (converter.rs lines 1006-1011):
packet `local_idx` gets `last_timestamp + time_step * local_idx`. -/
def assignUniform (lastTs timeStep : Int) :
    List PacketInfo → List (Nat × (Nat × Bool)) → List PacketInfo
  | buffer, [] => buffer
  | buffer, (localIdx, idx, _) :: rest =>
    assignUniform lastTs timeStep
      (setTs buffer idx (lastTs + timeStep * localIdx)) rest

/-- The interpolation loops of the music branch (converter.rs lines
1043-1055 and 1078-1090): the `step`-th listed packet gets
`base + step_delta * (step + 1)`. -/
def assignSeq (base step : Int) :
    List PacketInfo → Nat → List (Nat × Bool) → List PacketInfo
  | buffer, _, [] => buffer
  | buffer, k, (idx, _) :: rest =>
    assignSeq base step (setTs buffer idx (base + step * (k + 1))) (k + 1) rest

/-- The per-packet music walk (converter.rs lines 1035-1071), carrying
the packets seen since the last music packet (`pending`, the slice
`packet_infos[music_segment_start_packet_idx..local_idx]` of the
source): a music packet first interpolates the pending slice over
`time_per_music_segment`, then lands on the advanced `current_time`. -/
def musicLoop (timePerSeg : Int) :
    List PacketInfo → Int → List (Nat × Bool) → List (Nat × Bool) →
    List PacketInfo × Int × List (Nat × Bool)
  | buffer, currentTime, pending, [] => (buffer, currentTime, pending)
  | buffer, currentTime, pending, (idx, isMusic) :: rest =>
    if isMusic then
      let buffer1 :=
        if pending.length ≠ 0 then
          assignSeq currentTime (timeDeltaDiv timePerSeg (pending.length + 1))
            buffer 0 pending
        else buffer
      musicLoop timePerSeg (setTs buffer1 idx (currentTime + timePerSeg))
        (currentTime + timePerSeg) [] rest
    else
      musicLoop timePerSeg buffer currentTime (pending ++ [(idx, isMusic)]) rest

/-- Embedding of `ConversionContext::handle_auto_timestamp` (converter.rs
lines 940-1099): `none` is the non-positive-delta `Err`; an empty range
returns the buffer unchanged; with no music packets the range gets the
uniform distribution with the end packet forced to `cur_timestamp`, and
otherwise the per-music-segment interpolation runs.  The `i32` casts of
the source are left exact: the packet and music counts stay far below
`2^31`. -/
def handleAutoTimestamp (buffer : List PacketInfo) (startIndex endIndex : Nat)
    (lastTs curTs : Int) (musicBroadcasters : List Int) : Option (List PacketInfo) :=
  let totalDelta := curTs - lastTs
  if totalDelta ≤ 0 then none
  else if endIndex ≤ startIndex then some buffer
  else
    let packetInfos := (rangeIncl startIndex endIndex).map
      (fun i => (i, isMusicPacket musicBroadcasters (pktD buffer i)))
    let musicCount := packetInfos.countP (fun x => x.2)
    if musicCount = 0 then
      let totalPackets := packetInfos.length
      if totalPackets = 1 then some (setTs buffer endIndex curTs)
      else
        let timeStep := timeDeltaDiv totalDelta (totalPackets - 1)
        let buffer1 := assignUniform lastTs timeStep buffer packetInfos.enum
        some (setTs buffer1 endIndex curTs)
    else
      let timePerSeg := timeDeltaDiv totalDelta musicCount
      match musicLoop timePerSeg buffer lastTs [] packetInfos with
      | (buffer1, currentTime, pending) =>
        let buffer2 :=
          if pending.length ≠ 0 then
            assignSeq currentTime
              (timeDeltaDiv (curTs - currentTime) (pending.length + 1))
              buffer1 0 pending
          else buffer1
        some (setTs buffer2 endIndex curTs)

/-- C8: between anchors at 0 s and 4 s (indices 0 and 6) with five
intermediate packets and no music broadcasters, the uniform branch sets
the intermediate timestamps to k * (4 s / 6) = 666666666k ns for
k = 1..5 and forces the end packet to exactly 4 s.  The time step is
chrono's truncating `total_delta / (total_packets - 1)`, and the five
intermediate values round (at centisecond precision, as the claim's
2-decimal figures) to 0.67 s, 1.33 s, 2.00 s, 2.67 s and 3.33 s. -/
theorem handleAutoTimestamp_uniform_seven :
    handleAutoTimestamp (List.replicate 7 ⟨0, ⟨none, []⟩, []⟩) 0 6
        0 4000000000 [] =
      some (([0, 666666666, 1333333332, 1999999998, 2666666664, 3333333330,
        4000000000] : List Int).map (fun t => ⟨t, ⟨none, []⟩, []⟩)) ∧
    timeDeltaDiv (4000000000 - 0) (7 - 1) = 666666666 ∧
    (((666666666 : Int) + 5000000).fdiv 10000000 = 67 ∧
     ((1333333332 : Int) + 5000000).fdiv 10000000 = 133 ∧
     ((1999999998 : Int) + 5000000).fdiv 10000000 = 200 ∧
     ((2666666664 : Int) + 5000000).fdiv 10000000 = 267 ∧
     ((3333333330 : Int) + 5000000).fdiv 10000000 = 333) := by
  refine ⟨?_, ?_, ?_⟩
  · decide
  · decide
  · refine ⟨?_, ?_, ?_, ?_, ?_⟩ <;> decide

end Linkura
